import Mathlib

/-! Shallow embedding of `src/backend/access/gist/gistvacuum.c` (the GiST
index vacuum engine: the bulk-delete scan, the page processor, the
empty-page reclaimer and the page-delete operation), together with
theorems checking the specification's claims against it.

Modelling conventions:
* `BlockNumber` and `OffsetNumber` values are `Nat`; offsets are 1-based
  as in PostgreSQL (`FirstOffsetNumber = 1`), and the sentinel
  `InvalidBlockNumber` is `0xFFFFFFFF` as in the source.
* C `double` statistics fields (`num_index_tuples`, `tuples_removed`) are
  modelled as `ℚ`; the `BlockNumber`-typed counters are `Nat`.  The one
  place where unsigned wraparound is reachable (the
  `empty_pages_remaining -= ntodelete` update in
  `gistvacuum_delete_empty_pages`) is modelled with explicit `% 2^32`
  arithmetic (`subWrap32`).
* Buffers, locks and WAL are out of scope for the source file: page reads
  go through a `Store : Nat → GistPage`, lock calls are no-ops in this
  sequential model, and the number of WAL records a page visit emits is
  returned as an observation (`walRecords`).
* `gistPageRecyclable` is a judgment the source delegates to the storage
  layer (it is defined outside `gistvacuum.c`), so it is passed in as a
  bool-valued function parameter.
* The `IntegerSet` block sets live in `lib/integerset.c`, outside this
  source file.  Modelled from the spec: an ordered set of page
  identifiers built by appending in ascending order, with ascending
  iteration and point membership; we represent it as a `List Nat` to
  which members are appended (`intset_add_member` is `· ++ [blkno]`,
  iteration is list order, `intset_is_member` is list membership,
  `intset_num_entries` is `List.length`).
* The callback argument pair `(callback, callback_state)` is modelled as
  one optional function `Option (Nat → Bool)` applied to the block number
  stored in a tuple's `t_tid`.
-/

namespace GistVacuum

/-- One index tuple, as far as the vacuum code looks at it: the block
number stored in its `t_tid` (heap block for leaf tuples, child block for
downlinks) and the legacy `GistTupleIsInvalid` marker checked on internal
pages. -/
structure IndexTuple where
  tidBlk : Nat
  invalid : Bool := false
  deriving Repr, DecidableEq

/-- `InvalidBlockNumber` from `block.h` (`0xFFFFFFFF`). -/
def InvalidBlockNumber : Nat := 4294967295

/-- `FirstOffsetNumber` from `off.h` (offsets are 1-based). -/
def FirstOffsetNumber : Nat := 1

/-- `GIST_ROOT_BLKNO` from `gist_private.h`. -/
def GIST_ROOT_BLKNO : Nat := 0

/-- A GiST page as far as `gistvacuum.c` inspects and mutates it: the
`PageIsNew` state, the `F_LEAF` / `F_DELETED` / `F_FOLLOW_RIGHT` /
`F_HAS_GARBAGE` flag bits, the page NSN, the right sibling link, the
deletion stamp set by `GistPageSetDeleted`, and the line-pointer array of
tuples (`PageGetMaxOffsetNumber` is its length). -/
structure GistPage where
  isNew : Bool := false
  leaf : Bool := false
  deleted : Bool := false
  followRight : Bool := false
  hasGarbage : Bool := false
  nsn : Nat := 0
  rightlink : Nat := 4294967295
  deleteXid : Option Nat := none
  entries : List IndexTuple := []
  deriving Repr, DecidableEq

/-- The page store: block number to page.  Reading a buffer and looking
at its page is `store blkno`; page mutations are `Function.update`. -/
abbrev Store := Nat → GistPage

/-- `IndexBulkDeleteResult` from `genam.h` (the fields `gistvacuum.c`
touches; the C `double` fields are `ℚ` here). -/
structure IndexBulkDeleteResult where
  num_pages : Nat := 0
  pages_removed : Nat := 0
  estimated_count : Bool := false
  num_index_tuples : ℚ := 0
  tuples_removed : ℚ := 0
  pages_deleted : Nat := 0
  pages_free : Nat := 0
  deriving Repr, DecidableEq

/-- `GistBulkDeleteResult` (gistvacuum.c lines 30-42): the driver-owned
statistics plus the two block sets built in stage one. -/
structure GistBulkDeleteResult where
  stats : IndexBulkDeleteResult := {}
  internal_page_set : List Nat := []
  empty_leaf_set : List Nat := []
  deriving Repr, DecidableEq

/-- `create_GistBulkDeleteResult` (lines 65-77): `palloc0`, so every
counter starts at zero and the sets are absent/empty. -/
def create_GistBulkDeleteResult : GistBulkDeleteResult := {}

/-- Result of `gistdeletepage`: the C bool return plus the two pages and
the statistics as left behind by the call. -/
structure DeleteResult where
  ok : Bool
  parent : GistPage
  leaf : GistPage
  gstats : GistBulkDeleteResult
  deriving Repr, DecidableEq

/-- `gistdeletepage` (lines 598-684).  Re-checks every precondition and
either returns `false` leaving both pages and the stats untouched, or
marks the leaf deleted with the current transaction counter `txid`,
removes the `downlink` entry from the parent, bumps `pages_deleted` and
returns `true`.  (The C code reads the tuple at offset `downlink` only
after the range checks have passed; the `match` below can meet `none`
only for `downlink = 0`, which no caller produces, offsets being
1-based.) -/
def gistdeletepage (gstats : GistBulkDeleteResult) (parentPage : GistPage)
    (downlink : Nat) (leafPage : GistPage) (leafBlkno : Nat) (txid : Nat) :
    DeleteResult :=
  let failr : DeleteResult := ⟨false, parentPage, leafPage, gstats⟩
  if leafPage.leaf = false then
    failr
  else if leafPage.followRight = true then
    failr
  else if leafPage.entries.length ≠ 0 then
    failr
  else if parentPage.isNew = true ∨ parentPage.deleted = true ∨ parentPage.leaf = true then
    failr
  else if parentPage.entries.length < downlink ∨
          parentPage.entries.length ≤ FirstOffsetNumber then
    failr
  else
    match parentPage.entries[downlink - 1]? with
    | none => failr
    | some t =>
      if leafBlkno ≠ t.tidBlk then
        failr
      else
        { ok := true
          parent := { parentPage with entries := parentPage.entries.eraseIdx (downlink - 1) }
          leaf := { leafPage with deleted := true, deleteXid := some txid }
          gstats := { gstats with stats :=
            { gstats.stats with pages_deleted := gstats.stats.pages_deleted + 1 } } }

/-- 32-bit wrapping subtraction, for the `BlockNumber`-typed
`empty_pages_remaining -= ntodelete` update. -/
def subWrap32 (a b : Nat) : Nat := (a + (2 ^ 32 - b % 2 ^ 32)) % 2 ^ 32

/-- The downlink-collection loop of `gistvacuum_delete_empty_pages`
(lines 513-529): walk the parent's entries from offset `off` while fewer
than `maxoff - 1` candidates have been collected, recording
`(leafs_to_delete[i], todelete[i])` pairs for downlinks whose target is
in the empty-leaf set. -/
def collectCands (emptySet : List Nat) (maxoff : Nat) :
    List IndexTuple → Nat → Nat → List (Nat × Nat)
  | [], _, _ => []
  | t :: ts, off, cnt =>
    if cnt < maxoff - 1 then
      if t.tidBlk ∈ emptySet then
        (t.tidBlk, off) :: collectCands emptySet maxoff ts (off + 1) (cnt + 1)
      else
        collectCands emptySet maxoff ts (off + 1) cnt
    else []

/-- State carried by the per-parent deletion loop: the page store, the
statistics, the `deleted` counter of successful deletions, and (as an
observation for the theorems) the trace of `gistdeletepage` calls made,
each recorded as `(downlink offset passed, leaf block, returned ok)`. -/
structure DelLoopState where
  store : Store
  gstats : GistBulkDeleteResult
  deleted : Nat
  calls : List (Nat × Nat × Bool)

/-- The per-parent deletion loop of `gistvacuum_delete_empty_pages`
(lines 546-571): for each collected candidate, stop for good if the
parent is down to its last entry, otherwise read the leaf and call
`gistdeletepage` with offset `todelete[i] - deleted`, counting
successes. -/
def deleteCandidates (txid parentBlk : Nat) :
    List (Nat × Nat) → DelLoopState → DelLoopState
  | [], s => s
  | (leafblk, off) :: rest, s =>
    if (s.store parentBlk).entries.length = FirstOffsetNumber then s
    else
      let leafPage := s.store leafblk
      let r := gistdeletepage s.gstats (s.store parentBlk) (off - s.deleted)
                 leafPage leafblk txid
      deleteCandidates txid parentBlk rest
        { store := Function.update (Function.update s.store parentBlk r.parent) leafblk r.leaf
          gstats := r.gstats
          deleted := s.deleted + (if r.ok then 1 else 0)
          calls := s.calls ++ [(off - s.deleted, leafblk, r.ok)] }

/-- One iteration of the outer loop of `gistvacuum_delete_empty_pages`
(lines 480-583) for the internal page `blkno`: leave everything alone if
the page is no longer a live internal page (the `Assert(false); continue`
path, which also skips the counter update — hence the returned candidate
count 0), otherwise collect up to `maxoff - 1` candidate downlinks, run
the deletion loop, and add the number of successful deletions to
`pages_removed`.  Returns the new store, the new stats and `ntodelete`
(the number of candidates considered, by which the caller advances the
outstanding-empty-leaf counter). -/
def processInternalPage (emptySet : List Nat) (txid blkno : Nat)
    (store : Store) (gstats : GistBulkDeleteResult) :
    Store × GistBulkDeleteResult × Nat :=
  let page := store blkno
  if page.isNew = true ∨ page.deleted = true ∨ page.leaf = true then
    (store, gstats, 0)
  else
    let maxoff := page.entries.length
    let cands := collectCands emptySet maxoff page.entries FirstOffsetNumber 0
    let s := deleteCandidates txid blkno cands ⟨store, gstats, 0, []⟩
    (s.store,
     { s.gstats with stats :=
       { s.gstats.stats with pages_removed := s.gstats.stats.pages_removed + s.deleted } },
     cands.length)

/-- The outer loop of `gistvacuum_delete_empty_pages`: iterate the
internal-page set (in its stored order, which stage one built ascending)
while `empty_pages_remaining > 0`, decrementing the counter by the number
of candidates considered on each page. -/
def deleteEmptyPagesLoop (emptySet : List Nat) (txid : Nat) :
    List Nat → Nat → Store → GistBulkDeleteResult → Store × GistBulkDeleteResult
  | [], _, store, g => (store, g)
  | blkno :: rest, counter, store, g =>
    if counter = 0 then (store, g)
    else
      let r := processInternalPage emptySet txid blkno store g
      deleteEmptyPagesLoop emptySet txid rest (subWrap32 counter r.2.2) r.1 r.2.1

/-- `gistvacuum_delete_empty_pages` (lines 468-584).  The initial counter
is `intset_num_entries(empty_leaf_set)` (a `uint64`) assigned to a
`BlockNumber`, hence the `% 2^32`. -/
def gistvacuum_delete_empty_pages (txid : Nat) (store : Store)
    (g : GistBulkDeleteResult) : Store × GistBulkDeleteResult :=
  deleteEmptyPagesLoop g.empty_leaf_set txid g.internal_page_set
    (g.empty_leaf_set.length % 2 ^ 32) store g

/-- The callback scan loop over a leaf page's entries (lines 348-362),
starting at offset `off`.  Returns the trace of `t_tid` block numbers the
callback was invoked on (first component, one invocation per entry
walked) and the collected offsets of entries the callback reported dead
(`todelete`, second component, in ascending offset order). -/
def leafScanLoop (cb : Nat → Bool) : List IndexTuple → Nat → List Nat × List Nat
  | [], _ => ([], [])
  | t :: ts, off =>
    let r := leafScanLoop cb ts (off + 1)
    (t.tidBlk :: r.1, if cb t.tidBlk then off :: r.2 else r.2)

/-- `PageIndexMultiDelete` as used on line 374: remove the items at the
given 1-based offsets (walked here from position `k`) and compact the
rest, preserving order. -/
def pageIndexMultiDeleteFrom {α : Type} (offs : List Nat) : Nat → List α → List α
  | _, [] => []
  | k, t :: ts =>
    if k ∈ offs then pageIndexMultiDeleteFrom offs (k + 1) ts
    else t :: pageIndexMultiDeleteFrom offs (k + 1) ts

/-- `PageIndexMultiDelete(page, todelete, ntodelete)`: delete the entries
at the 1-based offsets `offs`. -/
def pageIndexMultiDelete {α : Type} (es : List α) (offs : List Nat) : List α :=
  pageIndexMultiDeleteFrom offs FirstOffsetNumber es

/-- The mutable state a stage-one page visit acts on. -/
structure ScanState where
  store : Store
  gstats : GistBulkDeleteResult

/-- Result of one `gistvacuumpage` loop body: the updated state, the
scheduled follow-up page (`recurse_to`), and observations for the
theorems: the trace of callback invocations, the number of WAL records
emitted, and the number of invalid-tuple diagnostics reported. -/
structure VacPageStep where
  st : ScanState
  recurse_to : Option Nat
  callbackCalls : List Nat
  walRecords : Nat
  invalidReports : Nat

/-- One execution of the body of `gistvacuumpage` (lines 290-449), i.e.
the processing of the single page `blkno` without the tail recursion:
classify the page (recyclable / already deleted / leaf / internal), on a
leaf decide whether to schedule `rightlink` as a follow-up, run the
callback scan, apply the batched deletion under a single WAL record,
record an empty page (forward-scan visits only) or accumulate the
remaining-tuple count, and on an internal page report invalid tuples and
record the block (forward-scan visits only).  `nremain` is
`maxoff - FirstOffsetNumber + 1` in int arithmetic, i.e. the recomputed
entry count. -/
def gistvacuumpageStep (gistPageRecyclable : GistPage → Bool)
    (callback : Option (Nat → Bool)) (startNSN : Nat)
    (st : ScanState) (blkno orig_blkno : Nat) : VacPageStep :=
  let page := st.store blkno
  if gistPageRecyclable page = true then
    { st := { st with gstats := { st.gstats with stats :=
        { st.gstats.stats with
          pages_free := st.gstats.stats.pages_free + 1,
          pages_deleted := st.gstats.stats.pages_deleted + 1 } } }
      recurse_to := none, callbackCalls := [], walRecords := 0, invalidReports := 0 }
  else if page.deleted = true then
    { st := { st with gstats := { st.gstats with stats :=
        { st.gstats.stats with pages_deleted := st.gstats.stats.pages_deleted + 1 } } }
      recurse_to := none, callbackCalls := [], walRecords := 0, invalidReports := 0 }
  else if page.leaf = true then
    let recurse : Option Nat :=
      if (page.followRight = true ∨ startNSN < page.nsn) ∧
         page.rightlink ≠ InvalidBlockNumber ∧ page.rightlink < orig_blkno then
        some page.rightlink
      else none
    let scanned : List Nat × List Nat :=
      match callback with
      | none => ([], [])
      | some cb => leafScanLoop cb page.entries FirstOffsetNumber
    let todelete := scanned.2
    let ntodelete := todelete.length
    let page' :=
      if 0 < ntodelete then
        { page with entries := pageIndexMultiDelete page.entries todelete,
                    hasGarbage := true }
      else page
    let stats1 :=
      if 0 < ntodelete then
        { st.gstats.stats with
          tuples_removed := st.gstats.stats.tuples_removed + (ntodelete : ℚ) }
      else st.gstats.stats
    let nremain := page'.entries.length
    let gstats' :=
      if nremain = 0 then
        { st.gstats with
          stats := stats1
          empty_leaf_set :=
            if blkno = orig_blkno then st.gstats.empty_leaf_set ++ [blkno]
            else st.gstats.empty_leaf_set }
      else
        { st.gstats with stats :=
          { stats1 with num_index_tuples := stats1.num_index_tuples + (nremain : ℚ) } }
    { st := { store := Function.update st.store blkno page', gstats := gstats' }
      recurse_to := recurse
      callbackCalls := scanned.1
      walRecords := if 0 < ntodelete then 1 else 0
      invalidReports := 0 }
  else
    { st := { st with gstats := { st.gstats with
        internal_page_set :=
          if blkno = orig_blkno then st.gstats.internal_page_set ++ [blkno]
          else st.gstats.internal_page_set } }
      recurse_to := none, callbackCalls := [], walRecords := 0
      invalidReports := page.entries.countP (fun t => t.invalid) }

/-- The full `gistvacuumpage` (the loop body plus the hand-optimized tail
recursion of lines 451-462).  The number of consecutive follow-right hops
is unbounded in principle, so the model bounds it with `fuel`; every
claim below is about either a single body execution or runs where the
fuel is not exhausted. -/
def gistvacuumpageLoop (gistPageRecyclable : GistPage → Bool)
    (callback : Option (Nat → Bool)) (startNSN : Nat) :
    Nat → ScanState → Nat → Nat → ScanState
  | 0, st, blkno, orig_blkno =>
    (gistvacuumpageStep gistPageRecyclable callback startNSN st blkno orig_blkno).st
  | Nat.succ fuel, st, blkno, orig_blkno =>
    let r := gistvacuumpageStep gistPageRecyclable callback startNSN st blkno orig_blkno
    match r.recurse_to with
    | some nb => gistvacuumpageLoop gistPageRecyclable callback startNSN fuel r.st nb orig_blkno
    | none => r.st

/-- The outer loop of `gistvacuumscan` (lines 230-246), driven by the
successive values `reads` returned by `RelationGetNumberOfBlocks` (the
caller guarantees these only grow during a scan): re-read the length,
quit when the whole relation has been scanned, else process every page up
to the length just read and loop back.  Returns the final state and the
final `num_pages`. -/
def gistvacuumscanLoop (fuel : Nat) (gistPageRecyclable : GistPage → Bool)
    (callback : Option (Nat → Bool)) (startNSN : Nat) :
    List Nat → Nat → Nat → ScanState → ScanState × Nat
  | [], _, num_pages, st => (st, num_pages)
  | n :: rest, blkno, _, st =>
    if n ≤ blkno then (st, n)
    else
      gistvacuumscanLoop fuel gistPageRecyclable callback startNSN rest n n
        ((List.range' blkno (n - blkno)).foldl
          (fun s b => gistvacuumpageLoop gistPageRecyclable callback startNSN fuel s b b) st)

/-- The statistics/page-set reset at the top of `gistvacuumscan` (lines
174-193): zero the counts that the scan increments, reset the page-set
context and create the two integer sets afresh. -/
def gistvacuumscanInit (g : GistBulkDeleteResult) : GistBulkDeleteResult :=
  { stats := { g.stats with
      estimated_count := false
      num_index_tuples := 0
      pages_deleted := 0
      pages_free := 0 }
    internal_page_set := []
    empty_leaf_set := [] }

/-- `gistvacuumscan` (lines 163-265): reset, then the outer loop starting
at `GIST_ROOT_BLKNO`, then (after the FSM vacuum side effect, a no-op
here) record the final page count in the stats. -/
def gistvacuumscan (fuel : Nat) (gistPageRecyclable : GistPage → Bool)
    (callback : Option (Nat → Bool)) (startNSN : Nat) (reads : List Nat)
    (g : GistBulkDeleteResult) (store : Store) : ScanState :=
  let g1 := gistvacuumscanInit g
  let r := gistvacuumscanLoop fuel gistPageRecyclable callback startNSN reads
             GIST_ROOT_BLKNO 0 ⟨store, g1⟩
  { r.1 with gstats := { r.1.gstats with stats :=
      { r.1.gstats.stats with num_pages := r.2 } } }

/-- `gistbulkdelete` (lines 82-95): allocate the stats on first call,
then run the scan. -/
def gistbulkdelete (fuel : Nat) (gistPageRecyclable : GistPage → Bool)
    (callback : Option (Nat → Bool)) (startNSN : Nat) (reads : List Nat)
    (gstats : Option GistBulkDeleteResult) (store : Store) : ScanState :=
  let g := match gstats with
    | none => create_GistBulkDeleteResult
    | some g0 => g0
  gistvacuumscan fuel gistPageRecyclable callback startNSN reads g store

/-- The forward-path visit sequence of the `gistvacuumscan` outer loop:
the block numbers passed to `gistvacuumpage` with `blkno = orig_blkno`,
as a function of the successive relation-length reads. -/
def scanLoopVisits : Nat → List Nat → List Nat
  | _, [] => []
  | blkno, n :: rest =>
    if n ≤ blkno then [] else List.range' blkno (n - blkno) ++ scanLoopVisits n rest

/-- The relation length at which the `gistvacuumscan` outer loop stops
growing: the first read that does not exceed the already-scanned bound. -/
def firstStall : Nat → List Nat → Nat
  | blkno, [] => blkno
  | blkno, n :: rest => if n ≤ blkno then blkno else firstStall n rest

/-- `gistvacuumcleanup` (lines 100-145) up to just before the clamping of
`num_index_tuples`: run the scan if `gistbulkdelete` was never called,
delete the empty pages, drop the page sets. -/
def gistvacuumcleanupCore (fuel : Nat) (gistPageRecyclable : GistPage → Bool)
    (startNSN : Nat) (reads : List Nat) (txid : Nat)
    (gstats : Option GistBulkDeleteResult) (store : Store) :
    GistBulkDeleteResult × Store :=
  let p : GistBulkDeleteResult × Store :=
    match gstats with
    | none =>
      let st := gistvacuumscan fuel gistPageRecyclable none startNSN reads
                  create_GistBulkDeleteResult store
      (st.gstats, st.store)
    | some g0 => (g0, store)
  let r := gistvacuum_delete_empty_pages txid p.2 p.1
  ({ r.2 with internal_page_set := [], empty_leaf_set := [] }, r.1)

/-- `gistvacuumcleanup` (lines 100-145): no-op in ANALYZE ONLY mode;
otherwise run the core and clamp `num_index_tuples` down to
`num_heap_tuples` when the heap count is exact and is exceeded. -/
def gistvacuumcleanup (analyze_only estimated_count : Bool)
    (num_heap_tuples : ℚ) (fuel : Nat) (gistPageRecyclable : GistPage → Bool)
    (startNSN : Nat) (reads : List Nat) (txid : Nat)
    (gstats : Option GistBulkDeleteResult) (store : Store) :
    Option GistBulkDeleteResult × Store :=
  if analyze_only = true then (gstats, store)
  else
    let c := gistvacuumcleanupCore fuel gistPageRecyclable startNSN reads txid gstats store
    let g := c.1
    let g' :=
      if estimated_count = false then
        if num_heap_tuples < g.stats.num_index_tuples then
          { g with stats := { g.stats with num_index_tuples := num_heap_tuples } }
        else g
      else g
    (some g', c.2)


/-! ## Helper lemmas about the embedded list primitives -/

/-- The callback trace of the leaf scan loop: one invocation per entry,
in page order. -/
theorem leafScanLoop_fst (cb : Nat → Bool) :
    ∀ (es : List IndexTuple) (k : Nat),
      (leafScanLoop cb es k).1 = es.map (fun t => t.tidBlk)
  | [], _ => rfl
  | t :: ts, k => by
    simp [leafScanLoop, leafScanLoop_fst cb ts (k + 1)]

/-- Offsets collected by the leaf scan loop are exactly the (1-based from
`k`) positions of entries the callback reports dead. -/
theorem leafScanLoop_snd_mem (cb : Nat → Bool) :
    ∀ (es : List IndexTuple) (k o : Nat),
      (o ∈ (leafScanLoop cb es k).2 ↔
        ∃ t, k ≤ o ∧ es[o - k]? = some t ∧ cb t.tidBlk = true)
  | [], k, o => by simp [leafScanLoop]
  | t :: ts, k, o => by
    have ih := leafScanLoop_snd_mem cb ts (k + 1) o
    simp only [leafScanLoop]
    by_cases hc : cb t.tidBlk = true
    · rw [if_pos hc]
      simp only [List.mem_cons]
      constructor
      · rintro (rfl | ho)
        · exact ⟨t, le_refl o, by simp, hc⟩
        · rcases ih.mp ho with ⟨t2, hk, hget, hcb⟩
          refine ⟨t2, by omega, ?_, hcb⟩
          have : o - k = (o - (k + 1)) + 1 := by omega
          rw [this, List.getElem?_cons_succ]
          exact hget
      · rintro ⟨t2, hk, hget, hcb⟩
        rcases Nat.eq_or_lt_of_le hk with rfl | hlt
        · exact Or.inl rfl
        · right
          refine ih.mpr ⟨t2, by omega, ?_, hcb⟩
          have : o - k = (o - (k + 1)) + 1 := by omega
          rw [this, List.getElem?_cons_succ] at hget
          exact hget
    · rw [if_neg hc, ih]
      constructor
      · rintro ⟨t2, hk, hget, hcb⟩
        refine ⟨t2, by omega, ?_, hcb⟩
        have : o - k = (o - (k + 1)) + 1 := by omega
        rw [this, List.getElem?_cons_succ]
        exact hget
      · rintro ⟨t2, hk, hget, hcb⟩
        rcases Nat.eq_or_lt_of_le hk with rfl | hlt
        · rw [Nat.sub_self, List.getElem?_cons_zero] at hget
          cases hget
          simp [hcb] at hc
        · refine ⟨t2, by omega, ?_, hcb⟩
          have : o - k = (o - (k + 1)) + 1 := by omega
          rw [this, List.getElem?_cons_succ] at hget
          exact hget

/-- Every collected offset lies in `[k, k + es.length)`. -/
theorem leafScanLoop_snd_bounds (cb : Nat → Bool) :
    ∀ (es : List IndexTuple) (k : Nat) (o : Nat),
      o ∈ (leafScanLoop cb es k).2 → k ≤ o ∧ o < k + es.length
  | [], k, o => by simp [leafScanLoop]
  | t :: ts, k, o => by
    simp only [leafScanLoop]
    intro hmem
    have hbase : o ∈ (leafScanLoop cb ts (k + 1)).2 → k ≤ o ∧ o < k + (t :: ts).length := by
      intro h
      have := leafScanLoop_snd_bounds cb ts (k + 1) o h
      simp only [List.length_cons]
      omega
    by_cases hc : cb t.tidBlk
    · rw [if_pos hc] at hmem
      rcases List.mem_cons.mp hmem with rfl | h
      · simp
      · exact hbase h
    · rw [if_neg hc] at hmem
      exact hbase hmem

/-- Collected offsets are strictly ascending. -/
theorem leafScanLoop_snd_pairwise (cb : Nat → Bool) :
    ∀ (es : List IndexTuple) (k : Nat),
      ((leafScanLoop cb es k).2).Pairwise (· < ·)
  | [], _ => by simp [leafScanLoop]
  | t :: ts, k => by
    simp only [leafScanLoop]
    have ih := leafScanLoop_snd_pairwise cb ts (k + 1)
    by_cases hc : cb t.tidBlk
    · rw [if_pos hc]
      refine List.Pairwise.cons ?_ ih
      intro o ho
      have := leafScanLoop_snd_bounds cb ts (k + 1) o ho
      omega
    · rw [if_neg hc]
      exact ih

/-- Deleting no offsets leaves the list unchanged. -/
theorem pageIndexMultiDeleteFrom_nil {α : Type} :
    ∀ (k : Nat) (es : List α), pageIndexMultiDeleteFrom [] k es = es
  | _, [] => rfl
  | k, t :: ts => by
    simp [pageIndexMultiDeleteFrom, pageIndexMultiDeleteFrom_nil (k + 1) ts]

/-- Offset lists that agree from position `k` on delete the same
entries. -/
theorem pageIndexMultiDeleteFrom_ext {α : Type}
    (offs1 offs2 : List Nat) :
    ∀ (es : List α) (k : Nat), (∀ o, k ≤ o → (o ∈ offs1 ↔ o ∈ offs2)) →
      pageIndexMultiDeleteFrom offs1 k es = pageIndexMultiDeleteFrom offs2 k es
  | [], _, _ => rfl
  | t :: ts, k, h => by
    have hrest : ∀ o, k + 1 ≤ o → (o ∈ offs1 ↔ o ∈ offs2) := fun o ho => h o (by omega)
    have ih := pageIndexMultiDeleteFrom_ext offs1 offs2 ts (k + 1) hrest
    by_cases hk : k ∈ offs1
    · have hk2 : k ∈ offs2 := (h k (le_refl k)).mp hk
      simp [pageIndexMultiDeleteFrom, hk, hk2, ih]
    · have hk2 : k ∉ offs2 := fun h2 => hk ((h k (le_refl k)).mpr h2)
      simp [pageIndexMultiDeleteFrom, hk, hk2, ih]

/-- A strictly ascending list bounded below by `k` that contains `k` must
start with it. -/
theorem pairwise_lt_head_eq {S : List Nat} {k : Nat}
    (hp : S.Pairwise (· < ·)) (hlb : ∀ s ∈ S, k ≤ s) (hk : k ∈ S) :
    ∃ T, S = k :: T := by
  cases S with
  | nil => cases hk
  | cons s T =>
    rcases List.mem_cons.mp hk with rfl | hmem
    · exact ⟨T, rfl⟩
    · exfalso
      have h1 : s < k := (List.pairwise_cons.mp hp).1 k hmem
      have h2 : k ≤ s := hlb s (List.mem_cons_self s T)
      omega

/-- A strictly ascending list of naturals inside `[a, b)` has at most
`b - a` elements. -/
theorem pairwise_lt_length_le :
    ∀ (S : List Nat) (a b : Nat), S.Pairwise (· < ·) →
      (∀ s ∈ S, a ≤ s ∧ s < b) → S.length ≤ b - a
  | [], _, _, _, _ => by simp
  | s :: T, a, b, hp, hb => by
    have hpc := List.pairwise_cons.mp hp
    have ih := pairwise_lt_length_le T (s + 1) b hpc.2
      (fun x hx => ⟨hpc.1 x hx, (hb x (List.mem_cons_of_mem s hx)).2⟩)
    have hs := hb s (List.mem_cons_self s T)
    simp only [List.length_cons]
    omega

/-- Deleting a strictly ascending in-range list of offsets removes
exactly one entry per offset. -/
theorem pageIndexMultiDeleteFrom_length {α : Type} :
    ∀ (es : List α) (S : List Nat) (k : Nat), S.Pairwise (· < ·) →
      (∀ s ∈ S, k ≤ s ∧ s < k + es.length) →
      (pageIndexMultiDeleteFrom S k es).length = es.length - S.length
  | [], S, k, hp, hb => by
    have : S = [] := by
      cases S with
      | nil => rfl
      | cons s T =>
        have := hb s (List.mem_cons_self s T)
        simp at this
        omega
    subst this
    rfl
  | t :: ts, S, k, hp, hb => by
    by_cases hk : k ∈ S
    · rcases pairwise_lt_head_eq hp (fun s hs => (hb s hs).1) hk with ⟨T, rfl⟩
      have hpc := List.pairwise_cons.mp hp
      have hT : ∀ s ∈ T, k + 1 ≤ s ∧ s < (k + 1) + ts.length := by
        intro s hs
        have h1 := hpc.1 s hs
        have h2 := (hb s (List.mem_cons_of_mem k hs)).2
        simp only [List.length_cons] at h2
        omega
      have hext : pageIndexMultiDeleteFrom (k :: T) (k + 1) ts =
          pageIndexMultiDeleteFrom T (k + 1) ts := by
        refine pageIndexMultiDeleteFrom_ext (k :: T) T ts (k + 1) ?_
        intro o ho
        simp only [List.mem_cons]
        constructor
        · rintro (rfl | h)
          · omega
          · exact h
        · exact Or.inr
      have hlen := pairwise_lt_length_le T (k + 1) ((k + 1) + ts.length) hpc.2 hT
      have ih := pageIndexMultiDeleteFrom_length ts T (k + 1) hpc.2 hT
      simp only [pageIndexMultiDeleteFrom, if_pos hk, hext, ih, List.length_cons]
      omega
    · have hS : ∀ s ∈ S, k + 1 ≤ s ∧ s < (k + 1) + ts.length := by
        intro s hs
        have h1 := (hb s hs).1
        have h2 := (hb s hs).2
        have : s ≠ k := fun h => hk (h ▸ hs)
        simp only [List.length_cons] at h2
        omega
      have hlen := pairwise_lt_length_le S (k + 1) ((k + 1) + ts.length) hp hS
      have ih := pageIndexMultiDeleteFrom_length ts S (k + 1) hp hS
      simp only [pageIndexMultiDeleteFrom, if_neg hk, List.length_cons, ih]
      omega

/-- Case inversion for `gistdeletepage`: every call either fails leaving
both pages and the stats untouched, or succeeds, in which case all the
re-validation checks held and the results are the two mutated pages plus
the bumped `pages_deleted`. -/
theorem gistdeletepage_inv (gstats : GistBulkDeleteResult) (parentPage : GistPage)
    (downlink : Nat) (leafPage : GistPage) (leafBlkno txid : Nat) :
    gistdeletepage gstats parentPage downlink leafPage leafBlkno txid =
        ⟨false, parentPage, leafPage, gstats⟩ ∨
    (gistdeletepage gstats parentPage downlink leafPage leafBlkno txid =
        ⟨true,
         { parentPage with entries := parentPage.entries.eraseIdx (downlink - 1) },
         { leafPage with deleted := true, deleteXid := some txid },
         { gstats with stats :=
           { gstats.stats with pages_deleted := gstats.stats.pages_deleted + 1 } }⟩ ∧
     leafPage.leaf = true ∧ leafPage.followRight = false ∧ leafPage.entries = [] ∧
     parentPage.isNew = false ∧ parentPage.deleted = false ∧ parentPage.leaf = false ∧
     downlink ≤ parentPage.entries.length ∧ 2 ≤ parentPage.entries.length ∧
     (∃ tt, parentPage.entries[downlink - 1]? = some tt ∧ tt.tidBlk = leafBlkno)) := by
  unfold gistdeletepage
  split_ifs with h1 h2 h3 h4 h5
  · exact Or.inl (by trivial)
  · exact Or.inl (by trivial)
  · exact Or.inl (by trivial)
  · exact Or.inl (by trivial)
  · exact Or.inl (by trivial)
  · rcases heq : parentPage.entries[downlink - 1]? with _ | tt
    · simp only [heq]
      exact Or.inl (by trivial)
    · simp only [heq]
      split_ifs with h6
      · exact Or.inl (by trivial)
      · push_neg at h1 h2 h3 h4 h5 h6
        refine Or.inr ⟨by trivial, ?_, ?_, List.length_eq_zero.mp (by omega), ?_, ?_, ?_,
          by omega, by simp [FirstOffsetNumber] at h5; omega, tt, rfl, h6.symm⟩
        · simpa using h1
        · simpa using h2
        · simpa using h4.1
        · simpa using h4.2.1
        · simpa using h4.2.2

/-- Erasing one index removes at most one element. -/
theorem length_eraseIdx_ge {α : Type} :
    ∀ (l : List α) (i : Nat), l.length - 1 ≤ (l.eraseIdx i).length
  | [], _ => by simp
  | _ :: _, 0 => by simp
  | a :: l, i + 1 => by
    simp only [List.eraseIdx_cons_succ, List.length_cons]
    have := length_eraseIdx_ge l i
    omega

/-- The candidate-collection loop never collects more than
`maxoff - 1 - cnt` further candidates. -/
theorem collectCands_length_le (emptySet : List Nat) (maxoff : Nat) :
    ∀ (ts : List IndexTuple) (off cnt : Nat),
      (collectCands emptySet maxoff ts off cnt).length ≤ maxoff - 1 - cnt
  | [], _, _ => by simp [collectCands]
  | t :: ts, off, cnt => by
    simp only [collectCands]
    split_ifs with h1 h2
    · have := collectCands_length_le emptySet maxoff ts (off + 1) (cnt + 1)
      simp only [List.length_cons]
      omega
    · exact collectCands_length_le emptySet maxoff ts (off + 1) cnt
    · simp

/-- `gistdeletepage` never leaves either page with fewer entries than
one: the leaf's entry list is returned unchanged, and the parent keeps at
least one entry whenever it had at least one. -/
theorem gistdeletepage_entries_lb (gstats : GistBulkDeleteResult)
    (parentPage : GistPage) (downlink : Nat) (leafPage : GistPage)
    (leafBlkno txid : Nat) :
    (gistdeletepage gstats parentPage downlink leafPage leafBlkno txid).leaf.entries
      = leafPage.entries ∧
    (1 ≤ parentPage.entries.length →
      1 ≤ (gistdeletepage gstats parentPage downlink leafPage leafBlkno
            txid).parent.entries.length) := by
  rcases gistdeletepage_inv gstats parentPage downlink leafPage leafBlkno txid with
    h | ⟨h, _, _, _, _, _, _, _, hlen2, _⟩
  · rw [h]
    exact ⟨rfl, fun hl => hl⟩
  · rw [h]
    refine ⟨rfl, fun _ => ?_⟩
    have := length_eraseIdx_ge parentPage.entries (downlink - 1)
    simp only
    omega

/-- The per-parent deletion loop preserves "every page keeps at least one
entry". -/
theorem deleteCandidates_entries_lb (txid parentBlk : Nat) :
    ∀ (cands : List (Nat × Nat)) (s : DelLoopState) (b : Nat),
      1 ≤ ((s.store b).entries.length) →
      1 ≤ (((deleteCandidates txid parentBlk cands s).store b).entries.length)
  | [], _, _, h => h
  | (leafblk, off) :: rest, s, b, h => by
    simp only [deleteCandidates]
    by_cases hbreak : (s.store parentBlk).entries.length = FirstOffsetNumber
    · rw [if_pos hbreak]
      exact h
    · rw [if_neg hbreak]
      refine deleteCandidates_entries_lb txid parentBlk rest _ b ?_
      dsimp only
      have hinv := gistdeletepage_entries_lb s.gstats (s.store parentBlk)
        (off - s.deleted) (s.store leafblk) leafblk txid
      by_cases hb1 : b = leafblk
      · subst hb1
        rw [Function.update_same]
        rw [hinv.1]
        exact h
      · rw [Function.update_noteq hb1]
        by_cases hb2 : b = parentBlk
        · subst hb2
          rw [Function.update_same]
          exact hinv.2 h
        · rw [Function.update_noteq hb2]
          exact h

/-- Whole-second-stage preservation of the entry lower bound. -/
theorem delete_empty_pages_entries_lb (txid : Nat) :
    ∀ (internalSet : List Nat) (emptySet : List Nat) (counter : Nat)
      (store : Store) (g : GistBulkDeleteResult) (b : Nat),
      1 ≤ ((store b).entries.length) →
      1 ≤ (((deleteEmptyPagesLoop emptySet txid internalSet counter store g).1 b).entries.length)
  | [], _, _, _, _, _, h => h
  | blkno :: rest, emptySet, counter, store, g, b, h => by
    simp only [deleteEmptyPagesLoop]
    split_ifs with hstop
    · exact h
    · refine delete_empty_pages_entries_lb txid rest emptySet _ _ _ b ?_
      simp only [processInternalPage]
      split_ifs with hflags
      · exact h
      · exact deleteCandidates_entries_lb txid blkno _ ⟨store, g, 0, []⟩ b h

/-! ## Claim C1: the page-delete operation `gistdeletepage` -/

/-- C1.  With a parent page, a downlink offset and a leaf page,
`gistdeletepage` returns false and mutates neither page nor the
statistics when the leaf is not a leaf, or is mid-split (follow-right),
or is non-empty, or the parent is a new/deleted/leaf page, or the
parent's entry count is less than the downlink offset or not greater
than one, or the downlink entry at that offset does not reference the
leaf's block number; otherwise it marks the leaf deleted stamped with the
current transaction counter, removes the downlink entry from the parent,
increments `pages_deleted` by one, and returns true. -/
theorem gistdeletepage_spec (gstats : GistBulkDeleteResult)
    (parentPage : GistPage) (downlink : Nat) (leafPage : GistPage)
    (leafBlkno txid : Nat) (hdl : FirstOffsetNumber ≤ downlink) :
    ((leafPage.leaf = false ∨ leafPage.followRight = true ∨ leafPage.entries ≠ [] ∨
      parentPage.isNew = true ∨ parentPage.deleted = true ∨ parentPage.leaf = true ∨
      parentPage.entries.length < downlink ∨ parentPage.entries.length ≤ 1 ∨
      (∃ t, parentPage.entries[downlink - 1]? = some t ∧ t.tidBlk ≠ leafBlkno)) →
      gistdeletepage gstats parentPage downlink leafPage leafBlkno txid =
        ⟨false, parentPage, leafPage, gstats⟩) ∧
    ((leafPage.leaf = true ∧ leafPage.followRight = false ∧ leafPage.entries = [] ∧
      parentPage.isNew = false ∧ parentPage.deleted = false ∧ parentPage.leaf = false ∧
      downlink ≤ parentPage.entries.length ∧ 1 < parentPage.entries.length ∧
      (∀ t, parentPage.entries[downlink - 1]? = some t → t.tidBlk = leafBlkno)) →
      gistdeletepage gstats parentPage downlink leafPage leafBlkno txid =
        ⟨true,
         { parentPage with entries := parentPage.entries.eraseIdx (downlink - 1) },
         { leafPage with deleted := true, deleteXid := some txid },
         { gstats with stats :=
           { gstats.stats with pages_deleted := gstats.stats.pages_deleted + 1 } }⟩) := by
  constructor
  · intro hbad
    unfold gistdeletepage
    split_ifs with h1 h2 h3 h4 h5
    · rfl
    · rfl
    · rfl
    · rfl
    · rfl
    · -- all validity checks passed: the match and the tid comparison remain
      rcases heq : parentPage.entries[downlink - 1]? with _ | t
      · simp [heq]
      · simp only [heq]
        split_ifs with h6
        · rfl
        · exfalso
          push_neg at h6
          rcases hbad with hb | hb | hb | hb | hb | hb | hb | hb | hb
          · simp [hb] at h1
          · exact h2 hb
          · exact hb (List.length_eq_zero.mp (by omega))
          · exact h4 (Or.inl hb)
          · exact h4 (Or.inr (Or.inl hb))
          · exact h4 (Or.inr (Or.inr hb))
          · exact h5 (Or.inl hb)
          · exact h5 (Or.inr (by simpa [FirstOffsetNumber] using hb))
          · rcases hb with ⟨t2, ht2, hne⟩
            rw [heq] at ht2
            cases ht2
            exact hne h6.symm
  · rintro ⟨hl, hfr, hemp, hnew, hdel2, hplf, hrange, hlen2, htid⟩
    unfold gistdeletepage
    have hlt : downlink - 1 < parentPage.entries.length := by
      simp [FirstOffsetNumber] at hdl
      omega
    rcases heq : parentPage.entries[downlink - 1]? with _ | t
    · exfalso
      rw [List.getElem?_eq_none_iff] at heq
      omega
    · have htb := htid t heq
      split_ifs with h1 h2 h3 h4 h5
      · simp [hl] at h1
      · simp [hfr] at h2
      · simp [hemp] at h3
      · simp [hnew, hdel2, hplf] at h4
      · simp [FirstOffsetNumber] at h5
        omega
      · simp only [heq]
        split_ifs with h6
        · exact absurd htb (Ne.symm h6)
        · rfl

/-- Witness for C1: a concrete successful deletion (parent with two
downlinks, empty leaf, matching downlink at offset 2). -/
theorem gistdeletepage_spec_witness :
    gistdeletepage {} { entries := [⟨7, false⟩, ⟨9, false⟩] } 2
        { leaf := true } 9 42 =
      ⟨true, { entries := [⟨7, false⟩] },
       { leaf := true, deleted := true, deleteXid := some 42 },
       { stats := { pages_deleted := 1 } }⟩ := by
  have h := (gistdeletepage_spec {} { entries := [⟨7, false⟩, ⟨9, false⟩] } 2
    { leaf := true } 9 42 (by decide)).2 (by decide)
  simpa using h


/-! ## Claim C3: the follow-right revisit condition -/

/-- C3.  When processing a live leaf page, a follow-up revisit of its
right sibling is scheduled if and only if (the page's follow-right flag
is set OR its NSN is greater than the scan's starting NSN) AND it has a
valid right sibling AND that sibling's block number is less than
`orig_blkno`.  The condition does not consult which pages the forward
scan has visited, so it holds in particular when the sibling was already
visited. -/
theorem gistvacuumpage_recurse_spec (gistPageRecyclable : GistPage → Bool)
    (callback : Option (Nat → Bool)) (startNSN : Nat) (st : ScanState)
    (blkno orig_blkno rl : Nat)
    (hrec : gistPageRecyclable (st.store blkno) = false)
    (hdel : (st.store blkno).deleted = false)
    (hleaf : (st.store blkno).leaf = true) :
    (gistvacuumpageStep gistPageRecyclable callback startNSN st blkno orig_blkno).recurse_to
        = some rl ↔
      (((st.store blkno).followRight = true ∨ startNSN < (st.store blkno).nsn) ∧
       (st.store blkno).rightlink ≠ InvalidBlockNumber ∧
       (st.store blkno).rightlink < orig_blkno ∧
       rl = (st.store blkno).rightlink) := by
  simp only [gistvacuumpageStep, hrec, hdel, hleaf]
  simp only [Bool.false_eq_true, if_false, if_true, reduceIte]
  split_ifs with hc
  · constructor
    · intro h
      rcases hc with ⟨h1, h2, h3⟩
      exact ⟨h1, h2, h3, (Option.some.injEq _ _ ▸ h).symm⟩
    · rintro ⟨_, _, _, rfl⟩
      rfl
  · constructor
    · intro h
      simp at h
    · rintro ⟨h1, h2, h3, rfl⟩
      exact absurd ⟨h1, h2, h3⟩ hc

/-- Witness for C3: a split-moved-left page (NSN above the scan start,
right sibling 1 below the forward bound 3) gets its sibling scheduled. -/
theorem gistvacuumpage_recurse_spec_witness :
    (gistvacuumpageStep (fun _ => false) none 0
      ⟨fun _ => { leaf := true, nsn := 5, rightlink := 1 }, {}⟩ 3 3).recurse_to = some 1 := by
  exact (gistvacuumpage_recurse_spec (fun _ => false) none 0
    ⟨fun _ => { leaf := true, nsn := 5, rightlink := 1 }, {}⟩ 3 3 1
    rfl rfl rfl).mpr (by decide)

/-! ## Claim C4: block sets are only fed by forward-path visits -/

/-- C4.  A leaf page that is empty after tuple removal has its block
number appended to the empty-leaf set if and only if it was reached via
the normal forward scan (`blkno = orig_blkno`); an empty leaf reached via
a follow-right hop is left unrecorded.  Symmetrically an internal page is
appended to the internal-page set only under the same condition. -/
theorem gistvacuumpage_blockset_spec (gistPageRecyclable : GistPage → Bool)
    (callback : Option (Nat → Bool)) (startNSN : Nat) (st : ScanState)
    (blkno orig_blkno : Nat) :
    ((gistPageRecyclable (st.store blkno) = false) →
     ((st.store blkno).deleted = false) →
     ((st.store blkno).leaf = true) →
     (((gistvacuumpageStep gistPageRecyclable callback startNSN st blkno
          orig_blkno).st.store blkno).entries = [] →
      (gistvacuumpageStep gistPageRecyclable callback startNSN st blkno
          orig_blkno).st.gstats.empty_leaf_set =
        if blkno = orig_blkno then st.gstats.empty_leaf_set ++ [blkno]
        else st.gstats.empty_leaf_set) ∧
     (((gistvacuumpageStep gistPageRecyclable callback startNSN st blkno
          orig_blkno).st.store blkno).entries ≠ [] →
      (gistvacuumpageStep gistPageRecyclable callback startNSN st blkno
          orig_blkno).st.gstats.empty_leaf_set = st.gstats.empty_leaf_set)) ∧
    ((gistPageRecyclable (st.store blkno) = false) →
     ((st.store blkno).deleted = false) →
     ((st.store blkno).leaf = false) →
     (gistvacuumpageStep gistPageRecyclable callback startNSN st blkno
         orig_blkno).st.gstats.internal_page_set =
       if blkno = orig_blkno then st.gstats.internal_page_set ++ [blkno]
       else st.gstats.internal_page_set) := by
  constructor
  · intro hrec hdel hleaf
    simp only [gistvacuumpageStep, hrec, hdel, hleaf]
    simp only [Bool.false_eq_true, if_false, if_true, reduceIte, Function.update_same]
    constructor
    · intro hempty
      rw [hempty]
      simp
    · intro hne
      rw [if_neg (fun h => hne (List.length_eq_zero.mp h))]
  · intro hrec hdel hleaf
    simp only [gistvacuumpageStep, hrec, hdel, hleaf]
    simp only [Bool.false_eq_true, if_false, if_true, reduceIte]

/-- Witness for C4: a concrete forward-path visit of an emptied leaf
(block 4, one dead tuple) records it, and a concrete internal page visit
via a follow-up hop (blkno 1 with orig 3) records nothing. -/
theorem gistvacuumpage_blockset_spec_witness :
    (gistvacuumpageStep (fun _ => false) (some (fun _ => true)) 0
      ⟨fun _ => { leaf := true, entries := [⟨8, false⟩] }, {}⟩ 4 4).st.gstats.empty_leaf_set
      = [4] ∧
    (gistvacuumpageStep (fun _ => false) none 0
      ⟨fun _ => { entries := [⟨8, false⟩] }, {}⟩ 1 3).st.gstats.internal_page_set = [] := by
  constructor
  · have h := ((gistvacuumpage_blockset_spec (fun _ => false) (some (fun _ => true)) 0
      ⟨fun _ => { leaf := true, entries := [⟨8, false⟩] }, {}⟩ 4 4).1 rfl rfl rfl).1
      (by decide)
    simpa using h
  · have h := (gistvacuumpage_blockset_spec (fun _ => false) none 0
      ⟨fun _ => { entries := [⟨8, false⟩] }, {}⟩ 1 3).2 rfl rfl rfl
    simpa using h


/-! ## Claim C5: the cleanup entry point clamps `num_index_tuples` -/

/-- C5.  In `gistvacuumcleanup` (not in ANALYZE ONLY mode), when the
driver's live-row count is exact (`estimated_count = false`) and the
computed remaining-tuple statistic exceeds `num_heap_tuples`, the
reported count is exactly `num_heap_tuples`; the reported count never
exceeds the computed one (corrected downward only), and no clamping
happens when the driver's count is estimated. -/
theorem gistvacuumcleanup_clamp_spec (estimated_count : Bool)
    (num_heap_tuples : ℚ) (fuel : Nat) (gistPageRecyclable : GistPage → Bool)
    (startNSN : Nat) (reads : List Nat) (txid : Nat)
    (gstats : Option GistBulkDeleteResult) (store : Store) :
    ((estimated_count = false →
      num_heap_tuples <
        (gistvacuumcleanupCore fuel gistPageRecyclable startNSN reads txid gstats
          store).1.stats.num_index_tuples →
      (gistvacuumcleanup false estimated_count num_heap_tuples fuel
          gistPageRecyclable startNSN reads txid gstats store).1 =
        some { (gistvacuumcleanupCore fuel gistPageRecyclable startNSN reads txid
                  gstats store).1 with
               stats := { (gistvacuumcleanupCore fuel gistPageRecyclable startNSN
                             reads txid gstats store).1.stats with
                          num_index_tuples := num_heap_tuples } }) ∧
     (∀ gr, (gistvacuumcleanup false estimated_count num_heap_tuples fuel
          gistPageRecyclable startNSN reads txid gstats store).1 = some gr →
        gr.stats.num_index_tuples ≤
          (gistvacuumcleanupCore fuel gistPageRecyclable startNSN reads txid gstats
            store).1.stats.num_index_tuples) ∧
     (estimated_count = true →
       (gistvacuumcleanup false estimated_count num_heap_tuples fuel
           gistPageRecyclable startNSN reads txid gstats store).1 =
         some (gistvacuumcleanupCore fuel gistPageRecyclable startNSN reads txid
                 gstats store).1)) := by
  refine ⟨?_, ?_, ?_⟩
  · intro hest hover
    subst hest
    simp [gistvacuumcleanup, hover]
  · intro gr hgr
    rcases hest : estimated_count with _ | _
    · subst hest
      simp only [gistvacuumcleanup, Bool.false_eq_true, reduceIte] at hgr
      split_ifs at hgr with hov
      · rw [Option.some.injEq] at hgr
        rw [← hgr]
        simpa using le_of_lt hov
      · rw [Option.some.injEq] at hgr
        rw [← hgr]
    · subst hest
      simp only [gistvacuumcleanup, Bool.false_eq_true, Bool.true_eq_false, reduceIte] at hgr
      rw [Option.some.injEq] at hgr
      rw [← hgr]
  · intro hest
    subst hest
    simp [gistvacuumcleanup]

/-- Witness for C5: with an exact heap count of 3 and a computed
remaining-tuple count of 5, the reported count is exactly 3. -/
theorem gistvacuumcleanup_clamp_spec_witness :
    (gistvacuumcleanup false false 3 0 (fun _ => false) 0 [0] 42
        (some { stats := { num_index_tuples := 5 } }) (fun _ => {})).1 =
      some { stats := { num_index_tuples := 3 } } := by
  have h := (gistvacuumcleanup_clamp_spec false 3 0 (fun _ => false) 0 [0] 42
    (some { stats := { num_index_tuples := 5 } }) (fun _ => {})).1 rfl (by decide)
  simpa using h

/-! ## Claim C6: what `gistvacuumscan` resets (corrected) -/

/-- Counterexample to C6 as stated.  The claim says all running counters,
including `tuples_removed` and `pages_removed`, are reset at the start of
every scan invocation.  But lines 178-181 reset only `estimated_count`,
`num_index_tuples`, `pages_deleted` and `pages_free`: on a relation whose
length reads as 0 the scan processes no page at all, yet a pre-existing
`tuples_removed = 5` and `pages_removed = 4` survive to the returned
statistics. -/
theorem gistvacuumscan_reset_counterexample :
    (gistvacuumscan 0 (fun _ => false) none 0 [0]
        { stats := { tuples_removed := 5, pages_removed := 4 } }
        (fun _ => {})).gstats.stats.tuples_removed ≠ 0 ∧
    (gistvacuumscan 0 (fun _ => false) none 0 [0]
        { stats := { tuples_removed := 5, pages_removed := 4 } }
        (fun _ => {})).gstats.stats.pages_removed ≠ 0 := by
  constructor
  · norm_num [gistvacuumscan, gistvacuumscanInit, gistvacuumscanLoop, GIST_ROOT_BLKNO]
  · norm_num [gistvacuumscan, gistvacuumscanInit, gistvacuumscanLoop, GIST_ROOT_BLKNO]

/-- C6 as amended.  At the start of every scan invocation, before any
page is processed, `gistvacuumscan` resets the estimated flag, the
remaining-tuple count, the pages-deleted and the pages-freed counters,
and empties and recreates both block sets; the tuples-removed and
pages-removed counters are NOT reset and keep accumulating across
bulk-delete invocations within one maintenance run.  The last conjunct
records that the scan loop starts from exactly this reset state. -/
theorem gistvacuumscan_reset_spec (fuel : Nat)
    (gistPageRecyclable : GistPage → Bool) (callback : Option (Nat → Bool))
    (startNSN : Nat) (reads : List Nat) (g : GistBulkDeleteResult)
    (store : Store) :
    (gistvacuumscanInit g).stats.estimated_count = false ∧
    (gistvacuumscanInit g).stats.num_index_tuples = 0 ∧
    (gistvacuumscanInit g).stats.pages_deleted = 0 ∧
    (gistvacuumscanInit g).stats.pages_free = 0 ∧
    (gistvacuumscanInit g).internal_page_set = [] ∧
    (gistvacuumscanInit g).empty_leaf_set = [] ∧
    (gistvacuumscanInit g).stats.tuples_removed = g.stats.tuples_removed ∧
    (gistvacuumscanInit g).stats.pages_removed = g.stats.pages_removed ∧
    gistvacuumscan fuel gistPageRecyclable callback startNSN reads g store =
      (let r := gistvacuumscanLoop fuel gistPageRecyclable callback startNSN reads
                  GIST_ROOT_BLKNO 0 ⟨store, gistvacuumscanInit g⟩
       { r.1 with gstats := { r.1.gstats with stats :=
           { r.1.gstats.stats with num_pages := r.2 } } }) := by
  refine ⟨rfl, rfl, rfl, rfl, rfl, rfl, rfl, rfl, rfl⟩


/-! ## Claim C7: leaf-page tuple removal -/

/-- C7.  Processing a live leaf page: the liveness callback is invoked
exactly once per entry (in page order); the collected offsets are exactly
those of entries the callback marks dead; with no callback nothing is
removed; if `n > 0` dead entries were collected all `n` are deleted from
the page in one batch under a single WAL record and `tuples_removed`
grows by exactly `n`; and the remaining-entry count is added to
`num_index_tuples` exactly when the page is non-empty afterwards. -/
theorem gistvacuumpage_leaf_spec (gistPageRecyclable : GistPage → Bool)
    (startNSN : Nat) (st : ScanState) (blkno orig_blkno : Nat)
    (cb : Nat → Bool)
    (hrec : gistPageRecyclable (st.store blkno) = false)
    (hdel : (st.store blkno).deleted = false)
    (hleaf : (st.store blkno).leaf = true) :
    ∀ td, td = (leafScanLoop cb (st.store blkno).entries FirstOffsetNumber).2 →
    ∀ r, r = gistvacuumpageStep gistPageRecyclable (some cb) startNSN st blkno orig_blkno →
    ∀ r0, r0 = gistvacuumpageStep gistPageRecyclable none startNSN st blkno orig_blkno →
      (r.callbackCalls = (st.store blkno).entries.map (fun t => t.tidBlk)) ∧
      (∀ o, o ∈ td ↔ ∃ t, FirstOffsetNumber ≤ o ∧
          (st.store blkno).entries[o - FirstOffsetNumber]? = some t ∧
          cb t.tidBlk = true) ∧
      ((r0.st.store blkno).entries = (st.store blkno).entries ∧
       r0.st.gstats.stats.tuples_removed = st.gstats.stats.tuples_removed ∧
       r0.walRecords = 0) ∧
      (td ≠ [] →
        (r.st.store blkno).entries = pageIndexMultiDelete (st.store blkno).entries td ∧
        (r.st.store blkno).entries.length = (st.store blkno).entries.length - td.length ∧
        r.st.gstats.stats.tuples_removed =
          st.gstats.stats.tuples_removed + (td.length : ℚ) ∧
        r.walRecords = 1) ∧
      (td = [] →
        (r.st.store blkno).entries = (st.store blkno).entries ∧
        r.st.gstats.stats.tuples_removed = st.gstats.stats.tuples_removed ∧
        r.walRecords = 0) ∧
      ((r.st.store blkno).entries ≠ [] →
        r.st.gstats.stats.num_index_tuples =
          st.gstats.stats.num_index_tuples + ((r.st.store blkno).entries.length : ℚ)) ∧
      ((r.st.store blkno).entries = [] →
        r.st.gstats.stats.num_index_tuples = st.gstats.stats.num_index_tuples) := by
  intro td htd r hr r0 hr0
  subst htd hr hr0
  refine ⟨?_, fun o => leafScanLoop_snd_mem cb (st.store blkno).entries FirstOffsetNumber o,
    ⟨?_, ?_, ?_⟩, ?_, ?_, ?_, ?_⟩
  · simp only [gistvacuumpageStep, hrec, hdel, hleaf, Bool.false_eq_true, reduceIte]
    exact leafScanLoop_fst cb _ _
  · simp only [gistvacuumpageStep, hrec, hdel, hleaf, Bool.false_eq_true, List.length_nil,
      Nat.reduceLT, reduceIte, Function.update_same]
  · simp only [gistvacuumpageStep, hrec, hdel, hleaf, Bool.false_eq_true, List.length_nil,
      Nat.reduceLT, reduceIte]
    split <;> rfl
  · simp only [gistvacuumpageStep, hrec, hdel, hleaf, Bool.false_eq_true, List.length_nil,
      Nat.reduceLT, reduceIte]
  · intro hne
    have hpos : 0 < (leafScanLoop cb (st.store blkno).entries FirstOffsetNumber).2.length :=
      List.length_pos.mpr hne
    refine ⟨?_, ?_, ?_, ?_⟩
    · simp only [gistvacuumpageStep, hrec, hdel, hleaf, Bool.false_eq_true, reduceIte,
        Function.update_same, if_pos hpos]
    · simp only [gistvacuumpageStep, hrec, hdel, hleaf, Bool.false_eq_true, reduceIte,
        Function.update_same, if_pos hpos]
      exact pageIndexMultiDeleteFrom_length (st.store blkno).entries _ FirstOffsetNumber
        (leafScanLoop_snd_pairwise cb _ _)
        (fun o ho => leafScanLoop_snd_bounds cb _ _ o ho)
    · simp only [gistvacuumpageStep, hrec, hdel, hleaf, Bool.false_eq_true, reduceIte,
        if_pos hpos]
      split <;> rfl
    · simp only [gistvacuumpageStep, hrec, hdel, hleaf, Bool.false_eq_true, reduceIte,
        if_pos hpos]
  · intro hnil
    have hnpos : ¬ 0 < (leafScanLoop cb (st.store blkno).entries FirstOffsetNumber).2.length := by
      rw [hnil]
      simp
    refine ⟨?_, ?_, ?_⟩
    · simp only [gistvacuumpageStep, hrec, hdel, hleaf, Bool.false_eq_true, reduceIte,
        Function.update_same, if_neg hnpos]
    · simp only [gistvacuumpageStep, hrec, hdel, hleaf, Bool.false_eq_true, reduceIte,
        if_neg hnpos]
      split <;> rfl
    · simp only [gistvacuumpageStep, hrec, hdel, hleaf, Bool.false_eq_true, reduceIte,
        if_neg hnpos]
  · intro hne
    by_cases hpos : 0 < (leafScanLoop cb (st.store blkno).entries FirstOffsetNumber).2.length
    · simp only [gistvacuumpageStep, hrec, hdel, hleaf, Bool.false_eq_true, reduceIte,
        Function.update_same, if_pos hpos] at hne ⊢
      rw [if_neg (fun h => hne (List.length_eq_zero.mp h))]
    · simp only [gistvacuumpageStep, hrec, hdel, hleaf, Bool.false_eq_true, reduceIte,
        Function.update_same, if_neg hpos] at hne ⊢
      rw [if_neg (fun h => hne (List.length_eq_zero.mp h))]
  · intro hnil
    by_cases hpos : 0 < (leafScanLoop cb (st.store blkno).entries FirstOffsetNumber).2.length
    · simp only [gistvacuumpageStep, hrec, hdel, hleaf, Bool.false_eq_true, reduceIte,
        Function.update_same, if_pos hpos] at hnil ⊢
      rw [if_pos (by rw [hnil]; rfl)]
    · simp only [gistvacuumpageStep, hrec, hdel, hleaf, Bool.false_eq_true, reduceIte,
        Function.update_same, if_neg hpos] at hnil ⊢
      rw [if_pos (by rw [hnil]; rfl)]

/-- Witness for C7: a three-entry leaf where the callback kills tuples 11
and 12 — both are removed in one WAL record, `tuples_removed` grows by 2,
and the surviving entry count 1 goes into `num_index_tuples`. -/
theorem gistvacuumpage_leaf_spec_witness :
    (gistvacuumpageStep (fun _ => false) (some (fun t => decide (11 ≤ t))) 0
      ⟨fun _ => { leaf := true, entries := [⟨10, false⟩, ⟨11, false⟩, ⟨12, false⟩] }, {}⟩
      2 2).callbackCalls = [10, 11, 12] ∧
    ((gistvacuumpageStep (fun _ => false) (some (fun t => decide (11 ≤ t))) 0
      ⟨fun _ => { leaf := true, entries := [⟨10, false⟩, ⟨11, false⟩, ⟨12, false⟩] }, {}⟩
      2 2).st.store 2).entries = [⟨10, false⟩] ∧
    (gistvacuumpageStep (fun _ => false) (some (fun t => decide (11 ≤ t))) 0
      ⟨fun _ => { leaf := true, entries := [⟨10, false⟩, ⟨11, false⟩, ⟨12, false⟩] }, {}⟩
      2 2).st.gstats.stats.tuples_removed = 2 ∧
    (gistvacuumpageStep (fun _ => false) (some (fun t => decide (11 ≤ t))) 0
      ⟨fun _ => { leaf := true, entries := [⟨10, false⟩, ⟨11, false⟩, ⟨12, false⟩] }, {}⟩
      2 2).walRecords = 1 ∧
    (gistvacuumpageStep (fun _ => false) (some (fun t => decide (11 ≤ t))) 0
      ⟨fun _ => { leaf := true, entries := [⟨10, false⟩, ⟨11, false⟩, ⟨12, false⟩] }, {}⟩
      2 2).st.gstats.stats.num_index_tuples = 1 := by
  have h := gistvacuumpage_leaf_spec (fun _ => false) 0
    ⟨fun _ => { leaf := true, entries := [⟨10, false⟩, ⟨11, false⟩, ⟨12, false⟩] }, {}⟩
    2 2 (fun t => decide (11 ≤ t)) rfl rfl rfl _ rfl _ rfl _ rfl
  have h4 := h.2.2.2.1 (by decide)
  have hl2 : (leafScanLoop (fun t => decide (11 ≤ t))
      [⟨10, false⟩, ⟨11, false⟩, ⟨12, false⟩] FirstOffsetNumber).2.length = 2 := by decide
  refine ⟨?_, ?_, ?_, h4.2.2.2, ?_⟩
  · simpa using h.1
  · rw [h4.1]
    decide
  · rw [h4.2.2.1]
    norm_num [hl2]
  · have hne : ((gistvacuumpageStep (fun _ => false) (some (fun t => decide (11 ≤ t))) 0
        ⟨fun _ => { leaf := true, entries := [⟨10, false⟩, ⟨11, false⟩, ⟨12, false⟩] }, {}⟩
        2 2).st.store 2).entries ≠ [] := by
      rw [h4.1]
      decide
    have h6 := h.2.2.2.2.2.1 hne
    rw [h6, h4.1]
    have hp1 : (pageIndexMultiDelete
        [(⟨10, false⟩ : IndexTuple), ⟨11, false⟩, ⟨12, false⟩]
        (leafScanLoop (fun t => decide (11 ≤ t))
          [⟨10, false⟩, ⟨11, false⟩, ⟨12, false⟩] FirstOffsetNumber).2).length = 1 := by decide
    norm_num [hp1]


/-! ## Claim C2: the last downlink of an internal page is never removed -/

/-- C2.  The engine never removes the last remaining downlink of an
internal page: the collection loop gathers at most `maxoff - 1`
candidates, the deletion loop abandons its candidates as soon as the
parent is down to a single entry, `gistdeletepage` refuses when the
parent has at most one entry, and consequently the whole second stage
preserves "every page with at least one entry keeps at least one
entry". -/
theorem gistvacuum_no_empty_internal_spec :
    (∀ (emptySet : List Nat) (maxoff : Nat) (ts : List IndexTuple) (off : Nat),
      (collectCands emptySet maxoff ts off 0).length ≤ maxoff - 1) ∧
    (∀ (txid parentBlk leafblk off : Nat) (rest : List (Nat × Nat)) (s : DelLoopState),
      (s.store parentBlk).entries.length = FirstOffsetNumber →
      deleteCandidates txid parentBlk ((leafblk, off) :: rest) s = s) ∧
    (∀ (gstats : GistBulkDeleteResult) (parentPage : GistPage) (downlink : Nat)
       (leafPage : GistPage) (leafBlkno txid : Nat),
      parentPage.entries.length ≤ 1 →
      gistdeletepage gstats parentPage downlink leafPage leafBlkno txid =
        ⟨false, parentPage, leafPage, gstats⟩) ∧
    (∀ (txid : Nat) (store : Store) (g : GistBulkDeleteResult) (b : Nat),
      1 ≤ (store b).entries.length →
      1 ≤ ((gistvacuum_delete_empty_pages txid store g).1 b).entries.length) := by
  refine ⟨?_, ?_, ?_, ?_⟩
  · intro emptySet maxoff ts off
    have := collectCands_length_le emptySet maxoff ts off 0
    omega
  · intro txid parentBlk leafblk off rest s hone
    simp only [deleteCandidates, if_pos hone]
  · intro gstats parentPage downlink leafPage leafBlkno txid hle
    rcases gistdeletepage_inv gstats parentPage downlink leafPage leafBlkno txid with
      h | ⟨_, _, _, _, _, _, _, _, hlen2, _⟩
    · exact h
    · omega
  · intro txid store g b h
    exact delete_empty_pages_entries_lb txid g.internal_page_set g.empty_leaf_set
      _ store g b h

/-- Witness for C2: a concrete second stage (root with three downlinks,
one empty child leaf) leaves the root with two entries, in particular at
least one. -/
theorem gistvacuum_no_empty_internal_spec_witness :
    1 ≤ ((gistvacuum_delete_empty_pages 42
      (fun b => if b = 0 then { entries := [⟨1, false⟩, ⟨2, false⟩, ⟨3, false⟩] }
                else { leaf := true, entries := if b = 2 then [] else [⟨100, false⟩] })
      { internal_page_set := [0], empty_leaf_set := [2] }).1 0).entries.length := by
  exact gistvacuum_no_empty_internal_spec.2.2.2 42
    (fun b => if b = 0 then { entries := [⟨1, false⟩, ⟨2, false⟩, ⟨3, false⟩] }
              else { leaf := true, entries := if b = 2 then [] else [⟨100, false⟩] })
    { internal_page_set := [0], empty_leaf_set := [2] } 0 (by decide)


/-! ## Claim C8: second-stage iteration and counter bookkeeping -/

/-- `gistdeletepage` bumps `pages_deleted` exactly on success and never
touches `pages_removed`. -/
theorem gistdeletepage_stats (gstats : GistBulkDeleteResult)
    (parentPage : GistPage) (downlink : Nat) (leafPage : GistPage)
    (leafBlkno txid : Nat) :
    (gistdeletepage gstats parentPage downlink leafPage leafBlkno
        txid).gstats.stats.pages_deleted =
      gstats.stats.pages_deleted +
        (if (gistdeletepage gstats parentPage downlink leafPage leafBlkno
              txid).ok = true then 1 else 0) ∧
    (gistdeletepage gstats parentPage downlink leafPage leafBlkno
        txid).gstats.stats.pages_removed = gstats.stats.pages_removed := by
  rcases gistdeletepage_inv gstats parentPage downlink leafPage leafBlkno txid with
    h | ⟨h, _⟩ <;> rw [h] <;> simp

/-- Through the per-parent deletion loop, `pages_deleted` advances in
lockstep with the `deleted` success counter, and `pages_removed` is not
touched. -/
theorem deleteCandidates_stats (txid parentBlk : Nat) (cands : List (Nat × Nat)) :
    ∀ (s : DelLoopState),
      (deleteCandidates txid parentBlk cands s).gstats.stats.pages_deleted + s.deleted =
        s.gstats.stats.pages_deleted + (deleteCandidates txid parentBlk cands s).deleted ∧
      (deleteCandidates txid parentBlk cands s).gstats.stats.pages_removed =
        s.gstats.stats.pages_removed := by
  induction cands with
  | nil => exact fun s => ⟨rfl, rfl⟩
  | cons c rest ih =>
    rcases c with ⟨lb, off⟩
    intro s
    simp only [deleteCandidates]
    by_cases hbreak : (s.store parentBlk).entries.length = FirstOffsetNumber
    · rw [if_pos hbreak]
      exact ⟨rfl, rfl⟩
    · rw [if_neg hbreak]
      set r := gistdeletepage s.gstats (s.store parentBlk) (off - s.deleted)
        (s.store lb) lb txid with hr
      have hg := gistdeletepage_stats s.gstats (s.store parentBlk) (off - s.deleted)
        (s.store lb) lb txid
      rw [← hr] at hg
      have ihs := ih ⟨Function.update (Function.update s.store parentBlk r.parent) lb r.leaf,
        r.gstats, s.deleted + (if r.ok then 1 else 0),
        s.calls ++ [(off - s.deleted, lb, r.ok)]⟩
      dsimp only at ihs
      rcases hok : r.ok with _ | _
      · rw [hok] at hg ihs
        simp only [Bool.false_eq_true, reduceIte] at hg ihs ⊢
        omega
      · rw [hok] at hg ihs
        simp only [reduceIte] at hg ihs ⊢
        omega

/-- Per internal page, the `pages_removed` increment equals the
`pages_deleted` increment (both count the successful deletions). -/
theorem processInternalPage_stats (emptySet : List Nat) (txid blkno : Nat)
    (store : Store) (g : GistBulkDeleteResult) :
    (processInternalPage emptySet txid blkno store g).2.1.stats.pages_removed +
        g.stats.pages_deleted =
      (processInternalPage emptySet txid blkno store g).2.1.stats.pages_deleted +
        g.stats.pages_removed := by
  simp only [processInternalPage]
  split_ifs with hflags
  · exact Nat.add_comm _ _
  · dsimp only
    have hdc := deleteCandidates_stats txid blkno
      (collectCands emptySet (store blkno).entries.length (store blkno).entries
        FirstOffsetNumber 0) ⟨store, g, 0, []⟩
    dsimp only at hdc
    omega

/-- Whole-loop telescoping of the previous lemma. -/
theorem deleteEmptyPagesLoop_stats (emptySet : List Nat) (txid : Nat) :
    ∀ (internalSet : List Nat) (counter : Nat) (store : Store)
      (g : GistBulkDeleteResult),
      (deleteEmptyPagesLoop emptySet txid internalSet counter store g).2.stats.pages_removed +
          g.stats.pages_deleted =
        (deleteEmptyPagesLoop emptySet txid internalSet counter store g).2.stats.pages_deleted +
          g.stats.pages_removed
  | [], _, _, _ => by exact Nat.add_comm _ _
  | blkno :: rest, counter, store, g => by
    simp only [deleteEmptyPagesLoop]
    split_ifs with hstop
    · exact Nat.add_comm _ _
    · have hp := processInternalPage_stats emptySet txid blkno store g
      have ih := deleteEmptyPagesLoop_stats emptySet txid rest
        (subWrap32 counter (processInternalPage emptySet txid blkno store g).2.2)
        (processInternalPage emptySet txid blkno store g).1
        (processInternalPage emptySet txid blkno store g).2.1
      omega

/-- C8.  The second-stage reclaimer: the outstanding-empty-leaf counter
starts at the size of the empty-leaf set, the loop stops as soon as it
reaches zero, each iteration advances it downward by the number of
candidates considered on that page (regardless of per-candidate success),
and the `pages_removed` statistic grows over the whole stage by exactly
the number of successful `gistdeletepage` calls — the same quantity by
which `pages_deleted` grows, since each success bumps `pages_deleted` by
one. -/
theorem gistvacuum_delete_empty_pages_spec :
    (∀ (emptySet : List Nat) (txid blkno : Nat) (rest : List Nat)
       (store : Store) (g : GistBulkDeleteResult),
      deleteEmptyPagesLoop emptySet txid (blkno :: rest) 0 store g = (store, g)) ∧
    (∀ (emptySet : List Nat) (txid blkno : Nat) (rest : List Nat) (counter : Nat)
       (store : Store) (g : GistBulkDeleteResult), counter ≠ 0 →
      deleteEmptyPagesLoop emptySet txid (blkno :: rest) counter store g =
        deleteEmptyPagesLoop emptySet txid rest
          (subWrap32 counter (processInternalPage emptySet txid blkno store g).2.2)
          (processInternalPage emptySet txid blkno store g).1
          (processInternalPage emptySet txid blkno store g).2.1) ∧
    (∀ a c : Nat, c ≤ a → a < 2 ^ 32 → subWrap32 a c = a - c) ∧
    (∀ (txid : Nat) (store : Store) (g : GistBulkDeleteResult),
      g.empty_leaf_set.length < 2 ^ 32 →
      gistvacuum_delete_empty_pages txid store g =
        deleteEmptyPagesLoop g.empty_leaf_set txid g.internal_page_set
          g.empty_leaf_set.length store g) ∧
    (∀ (gstats : GistBulkDeleteResult) (parentPage : GistPage) (downlink : Nat)
       (leafPage : GistPage) (leafBlkno txid : Nat),
      (gistdeletepage gstats parentPage downlink leafPage leafBlkno
          txid).gstats.stats.pages_deleted =
        gstats.stats.pages_deleted +
          (if (gistdeletepage gstats parentPage downlink leafPage leafBlkno
                txid).ok = true then 1 else 0)) ∧
    (∀ (txid : Nat) (store : Store) (g : GistBulkDeleteResult),
      (gistvacuum_delete_empty_pages txid store g).2.stats.pages_removed +
          g.stats.pages_deleted =
        (gistvacuum_delete_empty_pages txid store g).2.stats.pages_deleted +
          g.stats.pages_removed) := by
  refine ⟨?_, ?_, ?_, ?_, ?_, ?_⟩
  · intro emptySet txid blkno rest store g
    simp [deleteEmptyPagesLoop]
  · intro emptySet txid blkno rest counter store g hc
    simp only [deleteEmptyPagesLoop, if_neg hc]
  · intro a c hca ha
    have h32 : (2 : Nat) ^ 32 = 4294967296 := by norm_num
    simp only [subWrap32, h32] at *
    omega
  · intro txid store g hlen
    simp only [gistvacuum_delete_empty_pages, Nat.mod_eq_of_lt hlen]
  · intro gstats parentPage downlink leafPage leafBlkno txid
    exact (gistdeletepage_stats gstats parentPage downlink leafPage leafBlkno txid).1
  · intro txid store g
    exact deleteEmptyPagesLoop_stats g.empty_leaf_set txid g.internal_page_set
      (g.empty_leaf_set.length % 2 ^ 32) store g

/-- Witness for C8: concrete instances of the counter-stop equation, of
the wrap-free subtraction, and of the initial counter value. -/
theorem gistvacuum_delete_empty_pages_spec_witness :
    deleteEmptyPagesLoop [2] 42 (5 :: [7]) 0 (fun _ => {}) {} = ((fun _ => {}), {}) ∧
    subWrap32 3 2 = 1 ∧
    gistvacuum_delete_empty_pages 42 (fun _ => {})
        { internal_page_set := [0], empty_leaf_set := [2] } =
      deleteEmptyPagesLoop [2] 42 [0] 1 (fun _ => {})
        { internal_page_set := [0], empty_leaf_set := [2] } := by
  refine ⟨gistvacuum_delete_empty_pages_spec.1 [2] 42 5 [7] (fun _ => {}) {},
    gistvacuum_delete_empty_pages_spec.2.2.1 3 2 (by norm_num) (by norm_num), ?_⟩
  exact gistvacuum_delete_empty_pages_spec.2.2.2.1 42 (fun _ => {})
    { internal_page_set := [0], empty_leaf_set := [2] } (by norm_num)


/-! ## Claim C9: monotonic page-count coverage of the scan driver -/

/-- The forward visits of the outer scan loop form exactly the contiguous
range from the starting block to the first stalling length read. -/
theorem scanLoopVisits_eq :
    ∀ (reads : List Nat) (b : Nat),
      scanLoopVisits b reads = List.range' b (firstStall b reads - b) ∧
      b ≤ firstStall b reads
  | [], b => by simp [scanLoopVisits, firstStall]
  | n :: rest, b => by
    simp only [scanLoopVisits, firstStall]
    by_cases h : n ≤ b
    · rw [if_pos h, if_pos h]
      simp
    · rw [if_neg h, if_neg h]
      have ih := scanLoopVisits_eq rest n
      have hbn : b < n := by omega
      refine ⟨?_, by omega⟩
      rw [ih.1]
      have hb : n = b + (n - b) := by omega
      calc List.range' b (n - b) ++ List.range' n (firstStall n rest - n)
          = List.range' b (n - b) ++ List.range' (b + (n - b)) (firstStall n rest - n) := by
            rw [← hb]
        _ = List.range' b ((firstStall n rest - n) + (n - b)) := List.range'_append_1 _ _ _
        _ = List.range' b (firstStall n rest - b) := by
            have := ih.2
            congr 1
            omega

/-- A page-processing step on a follow-up visit (`blkno ≠ orig_blkno`)
never changes either block set. -/
theorem gistvacuumpageStep_sets (gistPageRecyclable : GistPage → Bool)
    (callback : Option (Nat → Bool)) (startNSN : Nat) (st : ScanState)
    (blkno orig_blkno : Nat) (hne : blkno ≠ orig_blkno) :
    (gistvacuumpageStep gistPageRecyclable callback startNSN st blkno
        orig_blkno).st.gstats.internal_page_set = st.gstats.internal_page_set ∧
    (gistvacuumpageStep gistPageRecyclable callback startNSN st blkno
        orig_blkno).st.gstats.empty_leaf_set = st.gstats.empty_leaf_set := by
  rcases h1 : gistPageRecyclable (st.store blkno) with _ | _
  · rcases h2 : (st.store blkno).deleted with _ | _
    · rcases h3 : (st.store blkno).leaf with _ | _
      · simp only [gistvacuumpageStep, h1, h2, h3, Bool.false_eq_true, reduceIte,
          if_neg hne]
        constructor <;> trivial
      · simp only [gistvacuumpageStep, h1, h2, h3, Bool.false_eq_true, reduceIte,
          if_neg hne]
        constructor <;> (repeat' split) <;> rfl
    · simp only [gistvacuumpageStep, h1, h2, Bool.false_eq_true, reduceIte]
      constructor <;> trivial
  · simp only [gistvacuumpageStep, h1, reduceIte]
    constructor <;> trivial

/-- A scheduled follow-up page always lies strictly below `orig_blkno`. -/
theorem gistvacuumpageStep_recurse_lt (gistPageRecyclable : GistPage → Bool)
    (callback : Option (Nat → Bool)) (startNSN : Nat) (st : ScanState)
    (blkno orig_blkno nb : Nat)
    (h : (gistvacuumpageStep gistPageRecyclable callback startNSN st blkno
        orig_blkno).recurse_to = some nb) : nb < orig_blkno := by
  rcases h1 : gistPageRecyclable (st.store blkno) with _ | _
  · rcases h2 : (st.store blkno).deleted with _ | _
    · rcases h3 : (st.store blkno).leaf with _ | _
      · simp [gistvacuumpageStep, h1, h2, h3] at h
      · simp only [gistvacuumpageStep, h1, h2, h3, Bool.false_eq_true, reduceIte] at h
        by_cases hc : ((st.store blkno).followRight = true ∨
            startNSN < (st.store blkno).nsn) ∧
            (st.store blkno).rightlink ≠ InvalidBlockNumber ∧
            (st.store blkno).rightlink < orig_blkno
        · rw [if_pos hc] at h
          cases h
          exact hc.2.2
        · rw [if_neg hc] at h
          cases h
    · simp [gistvacuumpageStep, h1, h2] at h
  · simp [gistvacuumpageStep, h1] at h

/-- The full follow-right loop on a follow-up visit never changes either
block set: every hop it takes stays strictly below `orig_blkno`. -/
theorem gistvacuumpageLoop_sets (gistPageRecyclable : GistPage → Bool)
    (callback : Option (Nat → Bool)) (startNSN : Nat) (fuel : Nat) :
    ∀ (st : ScanState) (blkno orig_blkno : Nat), blkno ≠ orig_blkno →
      (gistvacuumpageLoop gistPageRecyclable callback startNSN fuel st blkno
          orig_blkno).gstats.internal_page_set = st.gstats.internal_page_set ∧
      (gistvacuumpageLoop gistPageRecyclable callback startNSN fuel st blkno
          orig_blkno).gstats.empty_leaf_set = st.gstats.empty_leaf_set := by
  induction fuel with
  | zero =>
    intro st blkno orig_blkno hne
    exact gistvacuumpageStep_sets gistPageRecyclable callback startNSN st
      blkno orig_blkno hne
  | succ f ih =>
    intro st blkno orig_blkno hne
    have hsets := gistvacuumpageStep_sets gistPageRecyclable callback startNSN st
      blkno orig_blkno hne
    simp only [gistvacuumpageLoop]
    rcases hrec : (gistvacuumpageStep gistPageRecyclable callback startNSN st blkno
        orig_blkno).recurse_to with _ | nb
    · exact hsets
    · have hlt := gistvacuumpageStep_recurse_lt gistPageRecyclable callback startNSN
        st blkno orig_blkno nb hrec
      have hih := ih (gistvacuumpageStep gistPageRecyclable callback startNSN st blkno
        orig_blkno).st nb orig_blkno (by omega)
      exact ⟨hih.1.trans hsets.1, hih.2.trans hsets.2⟩

/-- The scan-loop state is the fold of single-page processing over the
forward-visit sequence. -/
theorem gistvacuumscanLoop_visits (fuel : Nat) (gistPageRecyclable : GistPage → Bool)
    (callback : Option (Nat → Bool)) (startNSN : Nat) :
    ∀ (reads : List Nat) (b np : Nat) (st : ScanState),
      (gistvacuumscanLoop fuel gistPageRecyclable callback startNSN reads b np st).1 =
        (scanLoopVisits b reads).foldl
          (fun s bb => gistvacuumpageLoop gistPageRecyclable callback startNSN fuel s bb bb) st
  | [], _, _, _ => rfl
  | n :: rest, b, np, st => by
    simp only [gistvacuumscanLoop, scanLoopVisits]
    by_cases h : n ≤ b
    · rw [if_pos h, if_pos h]
      rfl
    · rw [if_neg h, if_neg h, List.foldl_append]
      exact gistvacuumscanLoop_visits fuel gistPageRecyclable callback startNSN rest n n _

/-- C9.  The scan driver terminates as soon as a length read shows no
growth; otherwise it processes exactly the not-yet-visited range and
re-reads; every block in `[0, M)` (`M` the first stalled length read) is
a forward-path visit exactly once; the loop state is the fold over that
visit sequence; and follow-up (follow-right) visits — which always target
blocks strictly below `orig_blkno` — never add anything to either block
set, so they cannot duplicate Block Set entries. -/
theorem gistvacuumscan_coverage_spec :
    (∀ (b n : Nat) (rest : List Nat), n ≤ b →
      scanLoopVisits b (n :: rest) = []) ∧
    (∀ (b n : Nat) (rest : List Nat), b < n →
      scanLoopVisits b (n :: rest) = List.range' b (n - b) ++ scanLoopVisits n rest) ∧
    (∀ reads : List Nat,
      scanLoopVisits GIST_ROOT_BLKNO reads =
        List.range (firstStall GIST_ROOT_BLKNO reads)) ∧
    (∀ (reads : List Nat) (bb : Nat),
      (scanLoopVisits GIST_ROOT_BLKNO reads).count bb =
        if bb < firstStall GIST_ROOT_BLKNO reads then 1 else 0) ∧
    (∀ (fuel : Nat) (gistPageRecyclable : GistPage → Bool)
       (callback : Option (Nat → Bool)) (startNSN : Nat) (reads : List Nat)
       (b np : Nat) (st : ScanState),
      (gistvacuumscanLoop fuel gistPageRecyclable callback startNSN reads b np st).1 =
        (scanLoopVisits b reads).foldl
          (fun s bb => gistvacuumpageLoop gistPageRecyclable callback startNSN fuel s bb bb) st) ∧
    (∀ (gistPageRecyclable : GistPage → Bool) (callback : Option (Nat → Bool))
       (startNSN : Nat) (st : ScanState) (blkno orig_blkno nb : Nat),
      (gistvacuumpageStep gistPageRecyclable callback startNSN st blkno
          orig_blkno).recurse_to = some nb → nb < orig_blkno) ∧
    (∀ (gistPageRecyclable : GistPage → Bool) (callback : Option (Nat → Bool))
       (startNSN fuel : Nat) (st : ScanState) (blkno orig_blkno : Nat),
      blkno ≠ orig_blkno →
      (gistvacuumpageLoop gistPageRecyclable callback startNSN fuel st blkno
          orig_blkno).gstats.internal_page_set = st.gstats.internal_page_set ∧
      (gistvacuumpageLoop gistPageRecyclable callback startNSN fuel st blkno
          orig_blkno).gstats.empty_leaf_set = st.gstats.empty_leaf_set) := by
  have hc : ∀ reads : List Nat,
      scanLoopVisits GIST_ROOT_BLKNO reads =
        List.range (firstStall GIST_ROOT_BLKNO reads) := by
    intro reads
    have h := scanLoopVisits_eq reads GIST_ROOT_BLKNO
    rw [h.1, List.range_eq_range']
    simp [GIST_ROOT_BLKNO]
  refine ⟨?_, ?_, hc, ?_, gistvacuumscanLoop_visits, gistvacuumpageStep_recurse_lt,
    ?_⟩
  · intro b n rest h
    simp [scanLoopVisits, h]
  · intro b n rest h
    simp [scanLoopVisits, Nat.not_le.mpr h]
  · intro reads bb
    rw [hc reads]
    by_cases hlt : bb < firstStall GIST_ROOT_BLKNO reads
    · rw [if_pos hlt]
      exact List.count_eq_one_of_mem (List.nodup_range _) (List.mem_range.mpr hlt)
    · rw [if_neg hlt]
      exact List.count_eq_zero.mpr (fun hmem => hlt (List.mem_range.mp hmem))
  · intro gpr cb nsn fuel st blkno orig hne
    exact gistvacuumpageLoop_sets gpr cb nsn fuel st blkno orig hne

/-- Witness for C9: with length reads `[2, 2]` the forward path visits
exactly blocks 0 and 1, block 1 once and block 2 zero times; and a
follow-up processing of block 0 with forward bound 3 adds nothing to the
internal-page set. -/
theorem gistvacuumscan_coverage_spec_witness :
    scanLoopVisits GIST_ROOT_BLKNO [2, 2] = [0, 1] ∧
    (scanLoopVisits GIST_ROOT_BLKNO [2, 2]).count 1 = 1 ∧
    (scanLoopVisits GIST_ROOT_BLKNO [2, 2]).count 2 = 0 ∧
    scanLoopVisits 2 (2 :: []) = [] ∧
    (gistvacuumpageLoop (fun _ => false) none 0 5
        ⟨fun _ => { entries := [⟨9, false⟩] }, {}⟩ 0 3).gstats.internal_page_set = [] := by
  refine ⟨?_, ?_, ?_, gistvacuumscan_coverage_spec.1 2 2 [] (by norm_num), ?_⟩
  · rw [gistvacuumscan_coverage_spec.2.2.1 [2, 2]]
    decide
  · rw [gistvacuumscan_coverage_spec.2.2.2.1 [2, 2] 1]
    decide
  · rw [gistvacuumscan_coverage_spec.2.2.2.1 [2, 2] 2]
    decide
  · have h := (gistvacuumscan_coverage_spec.2.2.2.2.2.2 (fun _ => false) none 0 5
      ⟨fun _ => { entries := [⟨9, false⟩] }, {}⟩ 0 3 (by norm_num)).1
    rw [h]


/-! ## Claim C10: downlink offsets are shifted by earlier deletions -/

/-- Erasing, from an already-filtered list, the position that offset
`off` has after the deletion of the (strictly ascending, all below `off`)
offsets `S`, is the same as filtering out `S ++ [off]` from the start:
the compaction shift of earlier deletions is exactly `S.length`. -/
theorem pageIndexMultiDeleteFrom_eraseIdx {α : Type} :
    ∀ (es : List α) (S : List Nat) (k off : Nat), S.Pairwise (· < ·) →
      (∀ s ∈ S, k ≤ s ∧ s < off) → k ≤ off → off < k + es.length →
      (pageIndexMultiDeleteFrom S k es).eraseIdx (off - k - S.length) =
        pageIndexMultiDeleteFrom (S ++ [off]) k es
  | [], S, k, off, hp, hb, hko, hoff => by
    simp only [List.length_nil, Nat.add_zero] at hoff
    omega
  | e :: ts, S, k, off, hp, hb, hko, hoff => by
    by_cases hk : k ∈ S
    · obtain ⟨T, rfl⟩ := pairwise_lt_head_eq hp (fun s hs => (hb s hs).1) hk
      have hpc := List.pairwise_cons.mp hp
      have hTb : ∀ s ∈ T, k + 1 ≤ s ∧ s < off :=
        fun s hs => ⟨hpc.1 s hs, (hb s (List.mem_cons_of_mem k hs)).2⟩
      have hkoff : k < off := (hb k (List.mem_cons_self k T)).2
      have hext1 : pageIndexMultiDeleteFrom (k :: T) (k + 1) ts =
          pageIndexMultiDeleteFrom T (k + 1) ts := by
        refine pageIndexMultiDeleteFrom_ext (k :: T) T ts (k + 1) ?_
        intro o ho
        simp only [List.mem_cons]
        exact ⟨fun h => h.resolve_left (by omega), Or.inr⟩
      have hext2 : pageIndexMultiDeleteFrom (k :: (T ++ [off])) (k + 1) ts =
          pageIndexMultiDeleteFrom (T ++ [off]) (k + 1) ts := by
        refine pageIndexMultiDeleteFrom_ext (k :: (T ++ [off])) (T ++ [off]) ts (k + 1) ?_
        intro o ho
        simp only [List.mem_cons]
        exact ⟨fun h => h.resolve_left (by omega), Or.inr⟩
      have ih := pageIndexMultiDeleteFrom_eraseIdx ts T (k + 1) off hpc.2 hTb
        (by omega) (by simp only [List.length_cons] at hoff; omega)
      have hidx : off - k - (k :: T).length = off - (k + 1) - T.length := by
        simp only [List.length_cons]
        omega
      calc (pageIndexMultiDeleteFrom (k :: T) k (e :: ts)).eraseIdx
              (off - k - (k :: T).length)
          = (pageIndexMultiDeleteFrom (k :: T) (k + 1) ts).eraseIdx
              (off - (k + 1) - T.length) := by
            rw [hidx]
            congr 1
            simp [pageIndexMultiDeleteFrom, hk]
        _ = (pageIndexMultiDeleteFrom T (k + 1) ts).eraseIdx
              (off - (k + 1) - T.length) := by rw [hext1]
        _ = pageIndexMultiDeleteFrom (T ++ [off]) (k + 1) ts := ih
        _ = pageIndexMultiDeleteFrom (k :: (T ++ [off])) (k + 1) ts := hext2.symm
        _ = pageIndexMultiDeleteFrom ((k :: T) ++ [off]) k (e :: ts) := by
            simp [pageIndexMultiDeleteFrom]
    · by_cases hoffk : off = k
      · have hS : S = [] := by
          cases S with
          | nil => rfl
          | cons s T =>
            have := hb s (List.mem_cons_self s T)
            omega
        subst hS
        subst hoffk
        simp only [List.nil_append, List.length_nil, Nat.sub_self, Nat.sub_zero]
        rw [pageIndexMultiDeleteFrom_nil]
        have : pageIndexMultiDeleteFrom [off] off (e :: ts) =
            pageIndexMultiDeleteFrom [off] (off + 1) ts := by
          simp [pageIndexMultiDeleteFrom]
        rw [this]
        have : pageIndexMultiDeleteFrom [off] (off + 1) ts =
            pageIndexMultiDeleteFrom [] (off + 1) ts := by
          refine pageIndexMultiDeleteFrom_ext [off] [] ts (off + 1) ?_
          intro o ho
          simp only [List.mem_cons, List.not_mem_nil, iff_false]
          rintro (rfl | h)
          · omega
          · exact h
        rw [this, pageIndexMultiDeleteFrom_nil]
        rfl
      · have hko2 : k < off := by omega
        have hSb : ∀ s ∈ S, k + 1 ≤ s ∧ s < off := by
          intro s hs
          have h1 := hb s hs
          have : s ≠ k := fun h => hk (h ▸ hs)
          omega
        have hlen := pairwise_lt_length_le S (k + 1) off hp hSb
        have ih := pageIndexMultiDeleteFrom_eraseIdx ts S (k + 1) off hp hSb
          (by omega) (by simp only [List.length_cons] at hoff; omega)
        have hkS2 : k ∉ S ++ [off] := by
          simp only [List.mem_append, List.mem_cons, List.not_mem_nil]
          rintro (h | h | h)
          · exact hk h
          · omega
          · exact h
        have hidx : off - k - S.length = (off - (k + 1) - S.length) + 1 := by omega
        calc (pageIndexMultiDeleteFrom S k (e :: ts)).eraseIdx (off - k - S.length)
            = (e :: pageIndexMultiDeleteFrom S (k + 1) ts).eraseIdx
                ((off - (k + 1) - S.length) + 1) := by
              rw [← hidx]
              congr 1
              simp [pageIndexMultiDeleteFrom, hk]
          _ = e :: (pageIndexMultiDeleteFrom S (k + 1) ts).eraseIdx
                (off - (k + 1) - S.length) := by
              rw [List.eraseIdx_cons_succ]
          _ = e :: pageIndexMultiDeleteFrom (S ++ [off]) (k + 1) ts := by rw [ih]
          _ = pageIndexMultiDeleteFrom (S ++ [off]) k (e :: ts) := by
              simp [pageIndexMultiDeleteFrom, hkS2]

/-- Every candidate collected carries an offset in `[off, off + |ts|)`. -/
theorem collectCands_bounds (emptySet : List Nat) (maxoff : Nat) :
    ∀ (ts : List IndexTuple) (off cnt : Nat) (c : Nat × Nat),
      c ∈ collectCands emptySet maxoff ts off cnt →
      off ≤ c.2 ∧ c.2 < off + ts.length
  | [], _, _, _ => by simp [collectCands]
  | t :: ts, off, cnt, c => by
    simp only [collectCands]
    split_ifs with h1 h2
    · intro hmem
      rcases List.mem_cons.mp hmem with rfl | h
      · simp
      · have := collectCands_bounds emptySet maxoff ts (off + 1) (cnt + 1) c h
        simp only [List.length_cons]
        omega
    · intro hmem
      have := collectCands_bounds emptySet maxoff ts (off + 1) cnt c hmem
      simp only [List.length_cons]
      omega
    · simp

/-- The collected candidate offsets are strictly ascending. -/
theorem collectCands_snd_pairwise (emptySet : List Nat) (maxoff : Nat) :
    ∀ (ts : List IndexTuple) (off cnt : Nat),
      ((collectCands emptySet maxoff ts off cnt).map Prod.snd).Pairwise (· < ·)
  | [], _, _ => by simp [collectCands]
  | t :: ts, off, cnt => by
    simp only [collectCands]
    split_ifs with h1 h2
    · simp only [List.map_cons]
      refine List.Pairwise.cons ?_ (collectCands_snd_pairwise emptySet maxoff ts (off + 1) (cnt + 1))
      intro o ho
      rcases List.mem_map.mp ho with ⟨c, hc, rfl⟩
      have := collectCands_bounds emptySet maxoff ts (off + 1) (cnt + 1) c hc
      omega
    · exact collectCands_snd_pairwise emptySet maxoff ts (off + 1) cnt
    · simp


/-- Main induction for C10.  Starting from a parent whose current entries
are the original `page0.entries` with the already-deleted strictly
ascending offsets `S` compacted away (and `deleted = S.length`), the
per-parent deletion loop only ever erases originally recorded candidate
offsets: the final parent is the original minus `S ++ T` for some
ascending `T` drawn from the candidates\' offsets, `deleted` advances by
`T.length`, and the i-th `gistdeletepage` call receives exactly
`todelete[i] - deleted`, i.e. the recorded offset minus the successes so
far. -/
theorem deleteCandidates_offsets (txid P : Nat) (page0 : GistPage) :
    ∀ (cands : List (Nat × Nat)) (s : DelLoopState) (S : List Nat),
      s.store P = { page0 with entries := pageIndexMultiDelete page0.entries S } →
      s.deleted = S.length →
      S.Pairwise (· < ·) →
      (∀ x ∈ S, 1 ≤ x ∧ x ≤ page0.entries.length) →
      (∀ x ∈ S, ∀ c ∈ cands, x < c.2) →
      ((cands.map Prod.snd).Pairwise (· < ·)) →
      (∀ c ∈ cands, 1 ≤ c.2 ∧ c.2 ≤ page0.entries.length) →
      ∃ (T : List Nat) (newCalls : List (Nat × Nat × Bool)),
        T.Pairwise (· < ·) ∧
        (∀ x ∈ T, x ∈ cands.map Prod.snd) ∧
        (deleteCandidates txid P cands s).store P =
          { page0 with entries := pageIndexMultiDelete page0.entries (S ++ T) } ∧
        (deleteCandidates txid P cands s).deleted = S.length + T.length ∧
        (deleteCandidates txid P cands s).calls = s.calls ++ newCalls ∧
        newCalls.length ≤ cands.length ∧
        (∀ i poff lb ok, newCalls[i]? = some (poff, lb, ok) →
          ∃ lb2 off2, cands[i]? = some (lb2, off2) ∧ lb = lb2 ∧
            poff = off2 - (S.length + (newCalls.take i).countP (fun c => c.2.2))) := by
  intro cands
  induction cands with
  | nil =>
    intro s S hstore hdel hSp hSb hSlt hcp hcb
    exact ⟨[], [], by simp, by simp, by simpa [deleteCandidates] using hstore,
      by simpa [deleteCandidates] using hdel, by simp [deleteCandidates],
      by simp [deleteCandidates], by simp [deleteCandidates]⟩
  | cons c rest ih =>
    rcases c with ⟨lb, off⟩
    intro s S hstore hdel hSp hSb hSlt hcp hcb
    simp only [deleteCandidates]
    by_cases hbreak : (s.store P).entries.length = FirstOffsetNumber
    · rw [if_pos hbreak]
      exact ⟨[], [], by simp, by simp, by simpa using hstore, by simpa using hdel,
        by simp, by simp, by simp⟩
    · rw [if_neg hbreak]
      have hoffb := hcb (lb, off) (List.mem_cons_self _ _)
      have hpcands := List.pairwise_cons.mp hcp
      rcases gistdeletepage_inv s.gstats (s.store P) (off - s.deleted) (s.store lb)
          lb txid with hfail | ⟨hsucc, hlleaf, _, _, _, _, hpleaf, hdlle, hlen2, _⟩
      · -- the call failed: nothing changed but the trace
        have hstep : (deleteCandidates txid P rest
            { store := Function.update (Function.update s.store P
                (gistdeletepage s.gstats (s.store P) (off - s.deleted) (s.store lb)
                  lb txid).parent) lb
                (gistdeletepage s.gstats (s.store P) (off - s.deleted) (s.store lb)
                  lb txid).leaf
              gstats := (gistdeletepage s.gstats (s.store P) (off - s.deleted)
                (s.store lb) lb txid).gstats
              deleted := s.deleted + (if (gistdeletepage s.gstats (s.store P)
                (off - s.deleted) (s.store lb) lb txid).ok = true then 1 else 0)
              calls := s.calls ++ [(off - s.deleted, lb,
                (gistdeletepage s.gstats (s.store P) (off - s.deleted) (s.store lb)
                  lb txid).ok)] }) =
            deleteCandidates txid P rest
              { store := s.store, gstats := s.gstats, deleted := s.deleted,
                calls := s.calls ++ [(off - s.deleted, lb, false)] } := by
          rw [hfail]
          simp only [Bool.false_eq_true, reduceIte, Nat.add_zero,
            Function.update_eq_self]
        rw [hstep]
        obtain ⟨T, nc, hTp, hTmem, hTstore, hTdel, hTcalls, hTlen, hTtrace⟩ :=
          ih { store := s.store, gstats := s.gstats, deleted := s.deleted,
               calls := s.calls ++ [(off - s.deleted, lb, false)] } S
            hstore hdel hSp hSb
            (fun x hx c hc => hSlt x hx c (List.mem_cons_of_mem _ hc))
            hpcands.2
            (fun c hc => hcb c (List.mem_cons_of_mem _ hc))
        refine ⟨T, (off - s.deleted, lb, false) :: nc, hTp,
          fun x hx => List.mem_cons_of_mem _ (hTmem x hx), hTstore, hTdel, ?_, ?_, ?_⟩
        · rw [hTcalls, List.append_assoc]
          rfl
        · simp only [List.length_cons]
          omega
        · intro i poff lb3 ok3 hget
          rcases i with _ | j
          · rw [List.getElem?_cons_zero] at hget
            cases hget
            refine ⟨lb, off, by simp, rfl, ?_⟩
            simp [hdel]
          · rw [List.getElem?_cons_succ] at hget
            obtain ⟨lb2, off2, hc2, hlb2, hpoff2⟩ := hTtrace j poff lb3 ok3 hget
            refine ⟨lb2, off2, by simpa using hc2, hlb2, ?_⟩
            rw [hpoff2]
            congr 1
      · -- the call succeeded at offset off - deleted
        have hlbP : lb ≠ P := by
          intro h
          rw [h] at hlleaf
          rw [hlleaf] at hpleaf
          cases hpleaf
        have hentries : (pageIndexMultiDelete page0.entries S).eraseIdx
            (off - s.deleted - 1) = pageIndexMultiDelete page0.entries (S ++ [off]) := by
          have hidx : off - s.deleted - 1 = off - 1 - S.length := by omega
          rw [hidx]
          exact pageIndexMultiDeleteFrom_eraseIdx page0.entries S 1 off hSp
            (fun x hx => ⟨(hSb x hx).1, hSlt x hx (lb, off) (List.mem_cons_self _ _)⟩)
            (by omega)
            (by omega)
        have hnewparent : (gistdeletepage s.gstats (s.store P) (off - s.deleted)
            (s.store lb) lb txid).parent =
            { page0 with entries := pageIndexMultiDelete page0.entries (S ++ [off]) } := by
          rw [hsucc]
          rw [hstore]
          simp only
          rw [hentries]
        have hstep : (deleteCandidates txid P rest
            { store := Function.update (Function.update s.store P
                (gistdeletepage s.gstats (s.store P) (off - s.deleted) (s.store lb)
                  lb txid).parent) lb
                (gistdeletepage s.gstats (s.store P) (off - s.deleted) (s.store lb)
                  lb txid).leaf
              gstats := (gistdeletepage s.gstats (s.store P) (off - s.deleted)
                (s.store lb) lb txid).gstats
              deleted := s.deleted + (if (gistdeletepage s.gstats (s.store P)
                (off - s.deleted) (s.store lb) lb txid).ok = true then 1 else 0)
              calls := s.calls ++ [(off - s.deleted, lb,
                (gistdeletepage s.gstats (s.store P) (off - s.deleted) (s.store lb)
                  lb txid).ok)] }) =
            deleteCandidates txid P rest
              { store := Function.update (Function.update s.store P
                  { page0 with entries := pageIndexMultiDelete page0.entries (S ++ [off]) })
                  lb { (s.store lb) with deleted := true, deleteXid := some txid }
                gstats := { s.gstats with stats := { s.gstats.stats with
                  pages_deleted := s.gstats.stats.pages_deleted + 1 } }
                deleted := s.deleted + 1,
                calls := s.calls ++ [(off - s.deleted, lb, true)] } := by
          rw [hnewparent, hsucc]
          rfl
        rw [hstep]
        have hstore2 : (Function.update (Function.update s.store P
            { page0 with entries := pageIndexMultiDelete page0.entries (S ++ [off]) })
            lb { (s.store lb) with deleted := true, deleteXid := some txid }) P =
            { page0 with entries := pageIndexMultiDelete page0.entries (S ++ [off]) } := by
          rw [Function.update_noteq (Ne.symm hlbP), Function.update_same]
        have hSoffp : (S ++ [off]).Pairwise (· < ·) := by
          rw [List.pairwise_append]
          refine ⟨hSp, by simp, ?_⟩
          intro x hx y hy
          have hy2 : y = off := by simpa using hy
          rw [hy2]
          exact hSlt x hx (lb, off) (List.mem_cons_self _ _)
        have hSoffb : ∀ x ∈ S ++ [off], 1 ≤ x ∧ x ≤ page0.entries.length := by
          intro x hx
          rcases List.mem_append.mp hx with h | h
          · exact hSb x h
          · have h2 : x = off := by simpa using h
            rw [h2]
            exact hoffb
        have hSofflt : ∀ x ∈ S ++ [off], ∀ c ∈ rest, x < c.2 := by
          intro x hx c hc
          rcases List.mem_append.mp hx with h | h
          · exact hSlt x h c (List.mem_cons_of_mem _ hc)
          · have h2 : x = off := by simpa using h
            rw [h2]
            exact hpcands.1 c.2 (List.mem_map_of_mem Prod.snd hc)
        obtain ⟨T, nc, hTp, hTmem, hTstore, hTdel, hTcalls, hTlen, hTtrace⟩ :=
          ih { store := Function.update (Function.update s.store P
                 { page0 with entries := pageIndexMultiDelete page0.entries (S ++ [off]) })
                 lb { (s.store lb) with deleted := true, deleteXid := some txid }
               gstats := { s.gstats with stats := { s.gstats.stats with
                 pages_deleted := s.gstats.stats.pages_deleted + 1 } }
               deleted := s.deleted + 1,
               calls := s.calls ++ [(off - s.deleted, lb, true)] } (S ++ [off])
            hstore2 (by simp only [List.length_append, List.length_cons,
              List.length_nil]; omega)
            hSoffp hSoffb hSofflt hpcands.2
            (fun c hc => hcb c (List.mem_cons_of_mem _ hc))
        refine ⟨off :: T, (off - s.deleted, lb, true) :: nc, ?_, ?_, ?_, ?_, ?_, ?_, ?_⟩
        · refine List.Pairwise.cons ?_ hTp
          intro y hy
          have := hTmem y hy
          rcases List.mem_map.mp this with ⟨c, hc, rfl⟩
          exact hpcands.1 c.2 (List.mem_map_of_mem Prod.snd hc)
        · intro x hx
          rcases List.mem_cons.mp hx with rfl | h
          · exact List.mem_cons_self _ _
          · exact List.mem_cons_of_mem _ (hTmem x h)
        · rw [hTstore]
          rw [List.append_assoc]
          rfl
        · rw [hTdel]
          simp only [List.length_append, List.length_cons, List.length_nil]
          omega
        · rw [hTcalls, List.append_assoc]
          rfl
        · simp only [List.length_cons]
          omega
        · intro i poff lb3 ok3 hget
          rcases i with _ | j
          · rw [List.getElem?_cons_zero] at hget
            cases hget
            refine ⟨lb, off, by simp, rfl, ?_⟩
            simp [hdel]
          · rw [List.getElem?_cons_succ] at hget
            obtain ⟨lb2, off2, hc2, hlb2, hpoff2⟩ := hTtrace j poff lb3 ok3 hget
            refine ⟨lb2, off2, by simpa using hc2, hlb2, ?_⟩
            rw [hpoff2]
            congr 1
            simp only [List.take_succ_cons, List.countP_cons, List.length_append,
              List.length_cons, List.length_nil]
            simp
            omega


/-- C10.  For the candidates collected from one parent page, the i-th
`gistdeletepage` call receives downlink offset `todelete[i] - deleted`
(the originally recorded offset minus the number of earlier successful
deletions on that parent), and those adjusted offsets stay valid: every
entry the loop removes from the parent is one of the originally recorded
candidate downlinks — the final parent entry list is the original one
with a strictly ascending subset `T` of the recorded offsets compacted
out, `|T|` being the success count.  This rests on the candidates being
collected in ascending offset order. -/
theorem gistvacuum_offset_adjust_spec (txid P : Nat) (emptySet : List Nat)
    (store : Store) (g : GistBulkDeleteResult) :
    ∀ cands, cands = collectCands emptySet (store P).entries.length
        (store P).entries FirstOffsetNumber 0 →
    ∀ s1, s1 = deleteCandidates txid P cands ⟨store, g, 0, []⟩ →
      ∃ T : List Nat,
        T.Pairwise (· < ·) ∧
        (∀ x ∈ T, x ∈ cands.map Prod.snd) ∧
        (s1.store P).entries = pageIndexMultiDelete (store P).entries T ∧
        s1.deleted = T.length ∧
        s1.calls.length ≤ cands.length ∧
        (∀ i poff lb ok, s1.calls[i]? = some (poff, lb, ok) →
          ∃ lb2 off2, cands[i]? = some (lb2, off2) ∧ lb = lb2 ∧
            poff = off2 - (s1.calls.take i).countP (fun c => c.2.2)) := by
  intro cands hcands s1 hs1
  have hcb : ∀ c ∈ cands, 1 ≤ c.2 ∧ c.2 ≤ (store P).entries.length := by
    intro c hc
    rw [hcands] at hc
    have := collectCands_bounds emptySet (store P).entries.length (store P).entries
      FirstOffsetNumber 0 c hc
    simp only [FirstOffsetNumber] at this
    omega
  have hcp : (cands.map Prod.snd).Pairwise (· < ·) := by
    rw [hcands]
    exact collectCands_snd_pairwise emptySet (store P).entries.length
      (store P).entries FirstOffsetNumber 0
  obtain ⟨T, nc, hTp, hTmem, hTstore, hTdel, hTcalls, hTlen, hTtrace⟩ :=
    deleteCandidates_offsets txid P (store P) cands ⟨store, g, 0, []⟩ []
      (by simp [pageIndexMultiDelete, pageIndexMultiDeleteFrom_nil])
      rfl (by simp) (by simp) (by simp) hcp hcb
  subst hs1
  refine ⟨T, hTp, hTmem, ?_, ?_, ?_, ?_⟩
  · rw [hTstore]
    simp
  · rw [hTdel]
    simp
  · rw [hTcalls]
    simpa using hTlen
  · intro i poff lb ok hget
    rw [hTcalls] at hget
    simp only [List.nil_append] at hget
    obtain ⟨lb2, off2, hc2, hlb2, hpoff2⟩ := hTtrace i poff lb ok hget
    refine ⟨lb2, off2, hc2, hlb2, ?_⟩
    rw [hpoff2, hTcalls]
    simp

/-- Witness for C10: the concrete Scenario-A layout (root 0 with three
downlinks, leaf 2 empty) instantiated through the theorem. -/
theorem gistvacuum_offset_adjust_spec_witness :
    ∃ T : List Nat,
      T.Pairwise (· < ·) ∧
      (∀ x ∈ T, x ∈ (collectCands [2]
        ((fun b => if b = 0 then
            ({ entries := [⟨1, false⟩, ⟨2, false⟩, ⟨3, false⟩] } : GistPage)
          else { leaf := true,
                 entries := if b = 2 then [] else [⟨100, false⟩] }) (0 : Nat)).entries.length
        ((fun b => if b = 0 then
            ({ entries := [⟨1, false⟩, ⟨2, false⟩, ⟨3, false⟩] } : GistPage)
          else { leaf := true,
                 entries := if b = 2 then [] else [⟨100, false⟩] }) (0 : Nat)).entries
        FirstOffsetNumber 0).map Prod.snd) ∧
      ((deleteCandidates 42 0 (collectCands [2]
        ((fun b => if b = 0 then
            ({ entries := [⟨1, false⟩, ⟨2, false⟩, ⟨3, false⟩] } : GistPage)
          else { leaf := true,
                 entries := if b = 2 then [] else [⟨100, false⟩] }) (0 : Nat)).entries.length
        ((fun b => if b = 0 then
            ({ entries := [⟨1, false⟩, ⟨2, false⟩, ⟨3, false⟩] } : GistPage)
          else { leaf := true,
                 entries := if b = 2 then [] else [⟨100, false⟩] }) (0 : Nat)).entries
        FirstOffsetNumber 0)
        ⟨(fun b => if b = 0 then
            ({ entries := [⟨1, false⟩, ⟨2, false⟩, ⟨3, false⟩] } : GistPage)
          else { leaf := true,
                 entries := if b = 2 then [] else [⟨100, false⟩] }), {}, 0, []⟩).store 0).entries =
        pageIndexMultiDelete
          ((fun b => if b = 0 then
            ({ entries := [⟨1, false⟩, ⟨2, false⟩, ⟨3, false⟩] } : GistPage)
          else { leaf := true,
                 entries := if b = 2 then [] else [⟨100, false⟩] }) (0 : Nat)).entries T ∧
      (deleteCandidates 42 0 (collectCands [2]
        ((fun b => if b = 0 then
            ({ entries := [⟨1, false⟩, ⟨2, false⟩, ⟨3, false⟩] } : GistPage)
          else { leaf := true,
                 entries := if b = 2 then [] else [⟨100, false⟩] }) (0 : Nat)).entries.length
        ((fun b => if b = 0 then
            ({ entries := [⟨1, false⟩, ⟨2, false⟩, ⟨3, false⟩] } : GistPage)
          else { leaf := true,
                 entries := if b = 2 then [] else [⟨100, false⟩] }) (0 : Nat)).entries
        FirstOffsetNumber 0)
        ⟨(fun b => if b = 0 then
            ({ entries := [⟨1, false⟩, ⟨2, false⟩, ⟨3, false⟩] } : GistPage)
          else { leaf := true,
                 entries := if b = 2 then [] else [⟨100, false⟩] }), {}, 0, []⟩).deleted = T.length ∧
      (deleteCandidates 42 0 (collectCands [2]
        ((fun b => if b = 0 then
            ({ entries := [⟨1, false⟩, ⟨2, false⟩, ⟨3, false⟩] } : GistPage)
          else { leaf := true,
                 entries := if b = 2 then [] else [⟨100, false⟩] }) (0 : Nat)).entries.length
        ((fun b => if b = 0 then
            ({ entries := [⟨1, false⟩, ⟨2, false⟩, ⟨3, false⟩] } : GistPage)
          else { leaf := true,
                 entries := if b = 2 then [] else [⟨100, false⟩] }) (0 : Nat)).entries
        FirstOffsetNumber 0)
        ⟨(fun b => if b = 0 then
            ({ entries := [⟨1, false⟩, ⟨2, false⟩, ⟨3, false⟩] } : GistPage)
          else { leaf := true,
                 entries := if b = 2 then [] else [⟨100, false⟩] }), {}, 0, []⟩).calls.length ≤
        (collectCands [2]
        ((fun b => if b = 0 then
            ({ entries := [⟨1, false⟩, ⟨2, false⟩, ⟨3, false⟩] } : GistPage)
          else { leaf := true,
                 entries := if b = 2 then [] else [⟨100, false⟩] }) (0 : Nat)).entries.length
        ((fun b => if b = 0 then
            ({ entries := [⟨1, false⟩, ⟨2, false⟩, ⟨3, false⟩] } : GistPage)
          else { leaf := true,
                 entries := if b = 2 then [] else [⟨100, false⟩] }) (0 : Nat)).entries
        FirstOffsetNumber 0).length ∧
      (∀ i poff lb ok,
        (deleteCandidates 42 0 (collectCands [2]
          ((fun b => if b = 0 then
              ({ entries := [⟨1, false⟩, ⟨2, false⟩, ⟨3, false⟩] } : GistPage)
            else { leaf := true,
                   entries := if b = 2 then [] else [⟨100, false⟩] }) (0 : Nat)).entries.length
          ((fun b => if b = 0 then
              ({ entries := [⟨1, false⟩, ⟨2, false⟩, ⟨3, false⟩] } : GistPage)
            else { leaf := true,
                   entries := if b = 2 then [] else [⟨100, false⟩] }) (0 : Nat)).entries
          FirstOffsetNumber 0)
          ⟨(fun b => if b = 0 then
              ({ entries := [⟨1, false⟩, ⟨2, false⟩, ⟨3, false⟩] } : GistPage)
            else { leaf := true,
                   entries := if b = 2 then [] else [⟨100, false⟩] }), {}, 0, []⟩).calls[i]? =
            some (poff, lb, ok) →
        ∃ lb2 off2, (collectCands [2]
          ((fun b => if b = 0 then
              ({ entries := [⟨1, false⟩, ⟨2, false⟩, ⟨3, false⟩] } : GistPage)
            else { leaf := true,
                   entries := if b = 2 then [] else [⟨100, false⟩] }) (0 : Nat)).entries.length
          ((fun b => if b = 0 then
              ({ entries := [⟨1, false⟩, ⟨2, false⟩, ⟨3, false⟩] } : GistPage)
            else { leaf := true,
                   entries := if b = 2 then [] else [⟨100, false⟩] }) (0 : Nat)).entries
          FirstOffsetNumber 0)[i]? = some (lb2, off2) ∧ lb = lb2 ∧
          poff = off2 - ((deleteCandidates 42 0 (collectCands [2]
            ((fun b => if b = 0 then
                ({ entries := [⟨1, false⟩, ⟨2, false⟩, ⟨3, false⟩] } : GistPage)
              else { leaf := true,
                     entries := if b = 2 then [] else [⟨100, false⟩] }) (0 : Nat)).entries.length
            ((fun b => if b = 0 then
                ({ entries := [⟨1, false⟩, ⟨2, false⟩, ⟨3, false⟩] } : GistPage)
              else { leaf := true,
                     entries := if b = 2 then [] else [⟨100, false⟩] }) (0 : Nat)).entries
            FirstOffsetNumber 0)
            ⟨(fun b => if b = 0 then
                ({ entries := [⟨1, false⟩, ⟨2, false⟩, ⟨3, false⟩] } : GistPage)
              else { leaf := true,
                     entries := if b = 2 then [] else [⟨100, false⟩] }), {}, 0,
              []⟩).calls.take i).countP (fun c => c.2.2)) :=
  gistvacuum_offset_adjust_spec 42 0 [2]
    (fun b => if b = 0 then
        ({ entries := [⟨1, false⟩, ⟨2, false⟩, ⟨3, false⟩] } : GistPage)
      else { leaf := true, entries := if b = 2 then [] else [⟨100, false⟩] })
    {} _ rfl _ rfl

end GistVacuum
